import Mathlib

/-!
# Verification of the extension-object lifecycle core of timebertt/gardener

This file shallowly embeds the extension-object reconciliation and
state-synchronization protocol of the repository:

* `pkg/extensions/customresources.go` (readiness poller, deletion waiter,
  migration waiter, restore pipeline, operation annotator),
* `pkg/component/extensions/backupupload/backupupload.go` and
  `pkg/component/extensions/backupdownload/backupdownload.go` (relay-object
  deploy/destroy/wait components),
* `pkg/operation/botanist/backupupload.go` (snapshot computation and
  encryption) and the shoot-state download driver together with the
  `BackupDownload` reconciler (`extensions/pkg/controller/backupdownload`),

and settles the frozen specification claims about them.

Byte values are `Nat` (XOR of values below 256 stays below 256, so no
masking is needed to match Go's `byte` arithmetic on these paths), and
durations are nanosecond counts as `Nat`, matching
`time.Duration.Nanoseconds()` on the non-negative durations the code uses.

Helper packages of the repository that are not present under the source
tree (`pkg/utils/retry`, `pkg/utils/kubernetes/health`,
`pkg/apis/core/v1beta1/helper` lists, `gutil.ConfirmDeletion`,
`pkg/component` operation combinators, `controllerutils`) are modelled
from the specification; each such definition carries a doc comment
starting with `Modelled from the spec:`.
-/

/-! ## Bytes and XOR (for the AES-CFB relay-payload encryption) -/

/-- Byte strings are lists of byte values. -/
abbrev Bytes := List Nat

/-- Pointwise XOR of two byte strings, truncating to the shorter input:
this is Go's `xorBytes` applied over one keystream block by
`XORKeyStream`. -/
def zipXor (a b : Bytes) : Bytes := List.zipWith Nat.xor a b

/-- `aes.BlockSize` from `crypto/aes`. -/
def aesBlockSize : Nat := 16

/-- CFB-mode encryption keystream walk, from `cipher.NewCFBEncrypter`
followed by a single `XORKeyStream` over the whole plaintext (as in
`encrypt` of `pkg/operation/botanist/backupupload.go`): the shift
register starts at the IV, each 16-byte plaintext block is XORed with
the block-encryption of the register, and the produced ciphertext block
becomes the next register.  `E` is the AES block-encryption function of
the key; only its encrypt direction is used, exactly as in CFB. -/
def cfbEncryptBlocks (E : Bytes → Bytes) (reg : Bytes) (p : Bytes) : Bytes :=
  if hp : p = [] then []
  else
    let c := zipXor (p.take aesBlockSize) (E reg)
    c ++ cfbEncryptBlocks E c (p.drop aesBlockSize)
termination_by p.length
decreasing_by
  simp only [List.length_drop]
  have : 0 < p.length := List.length_pos.mpr hp
  simp [aesBlockSize]
  omega

/-- CFB-mode decryption keystream walk, from `cipher.NewCFBDecrypter`
followed by a single `XORKeyStream` (as in `decrypt` of the botanist's
shoot-state download file): identical to encryption except that the
shift register is fed from the incoming ciphertext. -/
def cfbDecryptBlocks (E : Bytes → Bytes) (reg : Bytes) (c : Bytes) : Bytes :=
  if hc : c = [] then []
  else
    zipXor (c.take aesBlockSize) (E reg) ++
      cfbDecryptBlocks E (c.take aesBlockSize) (c.drop aesBlockSize)
termination_by c.length
decreasing_by
  simp only [List.length_drop]
  have : 0 < c.length := List.length_pos.mpr hc
  simp [aesBlockSize]
  omega

/-- `encrypt` from `pkg/operation/botanist/backupupload.go`: the output
is the 16-byte IV followed by the CFB stream of the data.  The IV, drawn
from `crypto/rand` in the source, is passed in explicitly; `E` is the
AES block function obtained from `aes.NewCipher` on the fixed 32-byte
`cipherKey` (`aes.NewCipher` never fails for a 32-byte key). -/
def encrypt (E : Bytes → Bytes) (iv : Bytes) (data : Bytes) : Bytes :=
  iv ++ cfbEncryptBlocks E iv data

/-- `decrypt` from the botanist's shoot-state download file: fails
exactly when the input is shorter than `aes.BlockSize` (16) bytes;
otherwise splits off the IV and CFB-decrypts the rest. -/
def decrypt (E : Bytes → Bytes) (data : Bytes) : Except String Bytes :=
  if data.length < aesBlockSize then
    .error "Ciphertext block size is too short!"
  else
    .ok (cfbDecryptBlocks E (data.take aesBlockSize) (data.drop aesBlockSize))

theorem zipXor_length (a b : Bytes) : (zipXor a b).length = min a.length b.length := by
  simp [zipXor]

theorem zipXor_zipXor_cancel (a b : Bytes) (h : a.length ≤ b.length) :
    zipXor (zipXor a b) b = a := by
  induction a generalizing b with
  | nil => simp [zipXor]
  | cons x xs ih =>
    cases b with
    | nil => simp at h
    | cons y ys =>
      simp only [zipXor, List.zipWith_cons_cons] at *
      simp only [List.length_cons, Nat.add_le_add_iff_right] at h
      exact congrArg₂ List.cons (Nat.xor_cancel_right y x) (ih ys h)

theorem cfbEncryptBlocks_len_aux (E : Bytes → Bytes)
    (hE : ∀ s, (E s).length = aesBlockSize) (n : Nat) :
    ∀ p : Bytes, p.length ≤ n → ∀ reg, (cfbEncryptBlocks E reg p).length = p.length := by
  induction n with
  | zero =>
    intro p hp reg
    have hnil : p = [] := List.eq_nil_of_length_eq_zero (Nat.le_zero.mp hp)
    rw [cfbEncryptBlocks, dif_pos hnil, hnil]
  | succ n ih =>
    intro p hp reg
    by_cases hnil : p = []
    · rw [cfbEncryptBlocks, dif_pos hnil, hnil]
    · rw [cfbEncryptBlocks, dif_neg hnil]
      have hlen : 0 < p.length := List.length_pos.mpr hnil
      have hdrop : (p.drop aesBlockSize).length ≤ n := by
        simp only [List.length_drop, aesBlockSize]
        omega
      rw [List.length_append, ih _ hdrop, zipXor_length, hE reg]
      simp only [List.length_take, List.length_drop, aesBlockSize]
      omega

theorem cfbEncryptBlocks_length (E : Bytes → Bytes)
    (hE : ∀ s, (E s).length = aesBlockSize) (reg p : Bytes) :
    (cfbEncryptBlocks E reg p).length = p.length :=
  cfbEncryptBlocks_len_aux E hE p.length p Nat.le.refl reg

theorem cfbDecrypt_cfbEncrypt_aux (E : Bytes → Bytes)
    (hE : ∀ s, (E s).length = aesBlockSize) (n : Nat) :
    ∀ p : Bytes, p.length ≤ n → ∀ reg,
      cfbDecryptBlocks E reg (cfbEncryptBlocks E reg p) = p := by
  induction n with
  | zero =>
    intro p hp reg
    have hnil : p = [] := List.eq_nil_of_length_eq_zero (Nat.le_zero.mp hp)
    rw [cfbEncryptBlocks, dif_pos hnil, cfbDecryptBlocks, dif_pos rfl, hnil]
  | succ n ih =>
    intro p hp reg
    by_cases hnil : p = []
    · rw [cfbEncryptBlocks, dif_pos hnil, cfbDecryptBlocks, dif_pos rfl, hnil]
    · rw [cfbEncryptBlocks, dif_neg hnil]
      set c : Bytes := zipXor (p.take aesBlockSize) (E reg) with hc
      set rest : Bytes := cfbEncryptBlocks E c (p.drop aesBlockSize) with hrest
      have hclen : c.length = min p.length aesBlockSize := by
        rw [hc, zipXor_length, hE reg, List.length_take]
        omega
      have hcle : c.length ≤ aesBlockSize := by rw [hclen]; exact Nat.min_le_right _ _
      have hcnil : c ++ rest ≠ [] := by
        intro hcontra
        have : c = [] := List.append_eq_nil.mp hcontra |>.1
        have hlen : 0 < p.length := List.length_pos.mpr hnil
        rw [this] at hclen
        simp only [List.length_nil, aesBlockSize] at hclen
        omega
      rw [cfbDecryptBlocks, dif_neg hcnil]
      have htake : (c ++ rest).take aesBlockSize = c := by
        rcases Nat.lt_or_ge p.length aesBlockSize with hsmall | hbig
        · have : rest = [] := by
            rw [hrest, List.drop_eq_nil_of_le (Nat.le_of_lt hsmall), cfbEncryptBlocks,
              dif_pos rfl]
          rw [this, List.append_nil, List.take_of_length_le hcle]
        · have hc16 : c.length = aesBlockSize := by rw [hclen]; omega
          rw [← hc16, List.take_left]
      have hdrop : (c ++ rest).drop aesBlockSize = rest := by
        rcases Nat.lt_or_ge p.length aesBlockSize with hsmall | hbig
        · have hrnil : rest = [] := by
            rw [hrest, List.drop_eq_nil_of_le (Nat.le_of_lt hsmall), cfbEncryptBlocks,
              dif_pos rfl]
          rw [hrnil, List.append_nil, List.drop_eq_nil_of_le hcle]
        · have hc16 : c.length = aesBlockSize := by rw [hclen]; omega
          rw [← hc16, List.drop_left]
      rw [htake, hdrop]
      have hxor : zipXor c (E reg) = p.take aesBlockSize := by
        rw [hc]
        exact zipXor_zipXor_cancel _ _ (by rw [List.length_take, hE reg, aesBlockSize]; omega)
      have hlen : 0 < p.length := List.length_pos.mpr hnil
      have hdn : (p.drop aesBlockSize).length ≤ n := by
        simp only [List.length_drop, aesBlockSize]
        omega
      rw [hxor, hrest, ih _ hdn c, List.take_append_drop]

theorem decrypt_encrypt (E : Bytes → Bytes)
    (hE : ∀ s, (E s).length = aesBlockSize) (iv : Bytes) (hiv : iv.length = aesBlockSize)
    (data : Bytes) : decrypt E (encrypt E iv data) = .ok data := by
  have hlen : (encrypt E iv data).length = aesBlockSize + data.length := by
    rw [encrypt, List.length_append, hiv, cfbEncryptBlocks_length E hE]
  rw [decrypt, if_neg (by omega)]
  rw [encrypt, ← hiv, List.take_left, List.drop_left]
  rw [cfbDecrypt_cfbEncrypt_aux E hE data.length data Nat.le.refl iv]

/-! ## Core data model: extension objects, operations, errors -/

/-- `gardencorev1beta1.LastOperationType` values used by the protocol. -/
inductive GLastOperationType
  | create | reconcile | delete | migrate | restore
  deriving DecidableEq, Repr

/-- `gardencorev1beta1.LastOperationState` values of the status contract. -/
inductive GLastOperationState
  | processing | succeeded | error | failed | aborted | pending
  deriving DecidableEq, Repr

/-- `Status.LastOperation` of an extension object. -/
structure GLastOperation where
  type : GLastOperationType
  state : GLastOperationState
  deriving DecidableEq, Repr

/-- `gardencorev1beta1.LastError`: a description plus machine-readable
error codes. -/
structure GLastError where
  description : String
  codes : List String
  deriving DecidableEq, Repr

/-- `autoscalingv1.CrossVersionObjectReference` (the identity of an
auxiliary object referenced from an extension object's status). -/
structure ObjectReference where
  apiVersion : String
  kind : String
  name : String
  deriving DecidableEq, Repr

/-- `gardencorev1beta1.NamedResourceReference`: an entry of
`Status.Resources`. -/
structure NamedResourceReference where
  name : String
  resourceRef : ObjectReference
  deriving DecidableEq, Repr

/-- The portion of an `extensionsv1alpha1.Object` that the lifecycle
core reads and writes: object identity, the `spec.type`/`spec.purpose`
common fields, annotations, deletion timestamp and the status contract. -/
structure ExtensionObject where
  kind : String
  nspace : String
  name : String
  extensionType : String
  purpose : Option String
  annotations : List (String × String)
  deletionTimestamp : Option Nat
  lastOperation : Option GLastOperation
  lastError : Option GLastError
  state : Option String
  resources : List NamedResourceReference
  deriving DecidableEq, Repr

/-- `v1beta1constants.GardenerOperation`. -/
def gardenerOperation : String := "gardener.cloud/operation"

/-- `v1beta1constants.GardenerTimestamp`. -/
def gardenerTimestamp : String := "gardener.cloud/timestamp"

/-- `v1beta1constants.GardenerOperationReconcile`. -/
def gardenerOperationReconcile : String := "reconcile"

/-- `v1beta1constants.GardenerOperationRestore`. -/
def gardenerOperationRestore : String := "restore"

/-- `v1beta1constants.GardenerOperationMigrate`. -/
def gardenerOperationMigrate : String := "migrate"

/-- `v1beta1constants.GardenerOperationWaitForState`. -/
def gardenerOperationWaitForState : String := "wait-for-state"

/-- Annotation lookup on the association-list representation of
`metav1.ObjectMeta.Annotations` (keys are unique in a Kubernetes
annotation map; `annotationSet` below preserves that). -/
def annotationLookup (anns : List (String × String)) (key : String) : Option String :=
  match anns with
  | [] => none
  | (k, v) :: rest => if k = key then some v else annotationLookup rest key

/-- `kutil.SetMetaDataAnnotation` / `metav1.SetMetaDataAnnotation`:
replace the value under the key if present, otherwise append the pair. -/
def annotationSet (anns : List (String × String)) (key value : String) :
    List (String × String) :=
  match anns with
  | [] => [(key, value)]
  | (k, v) :: rest =>
    if k = key then (key, value) :: rest
    else (k, v) :: annotationSet rest key value

theorem annotationLookup_annotationSet (anns : List (String × String))
    (key value : String) :
    annotationLookup (annotationSet anns key value) key = some value := by
  induction anns with
  | nil => simp [annotationSet, annotationLookup]
  | cons p rest ih =>
    by_cases h : p.1 = key
    · simp [annotationSet, h, annotationLookup]
    · simp only [annotationSet]
      rw [if_neg h]
      simp only [annotationLookup]
      rw [if_neg h]
      exact ih

theorem annotationLookup_annotationSet_ne (anns : List (String × String))
    (key value other : String) (h : other ≠ key) :
    annotationLookup (annotationSet anns key value) other =
      annotationLookup anns other := by
  have hk : ¬(key = other) := fun hh => h hh.symm
  induction anns with
  | nil => simp [annotationSet, annotationLookup, hk]
  | cons p rest ih =>
    obtain ⟨k, v⟩ := p
    by_cases hp : k = key
    · simp only [annotationSet, if_pos hp, annotationLookup, if_neg hk]
      have hko : ¬(k = other) := by rw [hp]; exact hk
      rw [if_neg hko]
    · simp only [annotationSet, if_neg hp, annotationLookup]
      by_cases ho : k = other
      · rw [if_pos ho, if_pos ho]
      · rw [if_neg ho, if_neg ho, ih]

/-- A Go error as observed by this core: its message plus the error
codes carried when the error is (or wraps) a
`gardencorev1beta1helper.ErrorWithCodes`.  `coded` is an
`ErrorWithCodes` (matched by `errors.As` in the poller), `plain` is any
other error. -/
inductive HealthErr
  | coded (msg : String) (codes : List String)
  | plain (msg : String)
  deriving DecidableEq, Repr

/-- The message of an error (Go's `err.Error()`). -/
def HealthErr.msg : HealthErr → String
  | .coded m _ => m
  | .plain m => m

/-- `gardencorev1beta1helper.ExtractErrorCodes`: the codes when the
error wraps an `ErrorWithCodes`, nil otherwise. -/
def extractErrorCodes : HealthErr → List String
  | .coded _ codes => codes
  | .plain _ => []

/-- The error value ultimately returned by the wait helpers:
`NewErrorWithCodes(message, codes...)`, or a plain `errors.New` when no
codes were observed (empty list). -/
structure GError where
  msg : String
  codes : List String
  deriving DecidableEq, Repr

/-- The result of one `client.Client.Get` against the (possibly cached)
store during a poll: the object, a NotFound error, or another store
error.  A wait loop's successive observations are a function from the
attempt index to such a result; thanks to `createResetObjectFunc` the
object decoded at each attempt is exactly the observed one, with no
fields leaking over from earlier iterations. -/
inductive GetResult
  | notFound
  | found (obj : ExtensionObject)
  | storeErr (msg : String)
  deriving Repr

/-- How one retry attempt classifies its outcome, following the error
taxonomy of `pkg/utils/retry`. -/
inductive TryOutcome
  | done
  | minor (e : HealthErr)
  | severe (e : HealthErr)
  deriving DecidableEq, Repr

/-- How `retry.UntilTimeout` terminates: success, an aborting
SevereError, or timeout carrying the error of the last executed
(minor) attempt. -/
inductive RetryTermination
  | success
  | severe (e : HealthErr)
  | timeout (e : HealthErr)
  deriving DecidableEq, Repr

/-- Modelled from the spec: `retry.UntilTimeout` of `pkg/utils/retry`
is not under the source tree.  The spec (§4.3, §5) has the poller run
"repeatedly, on a fixed `interval` tick", the first attempt immediately
and every poll cancelled by the overall deadline, so attempt `k`
(0-based) runs at elapsed time `k * interval` and attempts run while
that is below `timeout`: `⌈timeout / interval⌉` attempts in total. -/
def maxAttempts (interval timeout : Nat) : Nat :=
  (timeout + interval - 1) / interval

/-- `extensionKey` from `pkg/extensions/customresources.go`. -/
def extensionKey (kind nspace name : String) : String :=
  kind ++ " " ++ nspace ++ "/" ++ name

/-- `formatErrorMessage` from `pkg/extensions/customresources.go`. -/
def formatErrorMessage (message description : String) : String :=
  message ++ ": " ++ description

/-- Modelled from the spec: the message format of the error that the
(missing) `retry.UntilTimeout` returns on deadline expiry.  §7 requires
that "the final timeout error always retains the last observed domain
error", so the timeout error wraps the last attempt's error message. -/
def retryTimeoutMessage (lastErrMsg : String) : String :=
  "retry failed with context deadline exceeded, last error: " ++ lastErrMsg

/-! ## The readiness poller (`WaitUntilObjectReadyWithHealthFunction`) -/

/-- `errors.As(err, &errorWithCode)`: whether the error is an
`ErrorWithCodes`. -/
def isCoded : HealthErr → Bool
  | .coded _ _ => true
  | .plain _ => false

/-- Result of running a retry loop: how it terminated, the
`lastObservedError` captured by the surrounding closure, and the
0-based index of the attempt on which it stopped (the attempt runs at
elapsed time `stopIndex * interval`). -/
structure LoopResult where
  termination : RetryTermination
  lastObserved : Option HealthErr
  stopIndex : Nat
  deriving DecidableEq, Repr

/-- The body of `WaitUntilObjectReadyWithHealthFunction`
(`pkg/extensions/customresources.go`, the closure passed to
`retry.UntilTimeout`) iterated by the modelled retry driver.  At
attempt `k` (0-based; `retryCountUntilSevere = k + 1`):

* a NotFound get is a MinorError (retried),
* any other get error is a SevereError (aborts),
* a health error that is an `ErrorWithCodes` goes through
  `retry.MinorOrSevereError(retryCountUntilSevere,
  severeThreshold/interval, err)`, becoming severe once the count
  exceeds the threshold; any other health error is always minor; either
  way it is recorded as `lastObservedError`,
* on health success a non-nil `postReadyFunc` runs; its error is
  severe; otherwise the loop returns `retry.Ok()`.

The retry driver itself (`retry.UntilTimeout`) is modelled from the
spec: minor errors retry on the next tick until the attempt budget
(`maxAttempts`) is exhausted, at which point the deadline has expired
and the loop times out carrying the last attempt's error. -/
def readyLoop (get : Nat → GetResult) (healthFunc : ExtensionObject → Option HealthErr)
    (postReady : Option (Option HealthErr)) (threshold : Nat)
    (lastObserved : Option HealthErr) (k : Nat) : Nat → LoopResult
  | 0 => ⟨.timeout (.plain "context deadline exceeded"), lastObserved, k⟩
  | fuel + 1 =>
    match get k with
    | .storeErr m => ⟨.severe (.plain m), lastObserved, k⟩
    | .notFound =>
      match fuel with
      | 0 => ⟨.timeout (.plain "not found"), lastObserved, k⟩
      | _ + 1 => readyLoop get healthFunc postReady threshold lastObserved (k + 1) fuel
    | .found obj =>
      match healthFunc obj with
      | some e =>
        if isCoded e ∧ k + 1 > threshold then ⟨.severe e, some e, k⟩
        else
          match fuel with
          | 0 => ⟨.timeout e, some e, k⟩
          | _ + 1 => readyLoop get healthFunc postReady threshold (some e) (k + 1) fuel
      | none =>
        match postReady with
        | some (some pe) => ⟨.severe pe, lastObserved, k⟩
        | _ => ⟨.success, lastObserved, k⟩

/-- The full retry run of `WaitUntilObjectReadyWithHealthFunction`:
threshold `severeThreshold / interval` nanoseconds-ratio exactly as in
`int(severeThreshold.Nanoseconds()/interval.Nanoseconds())`, attempt
budget from the modelled `retry.UntilTimeout`. -/
def waitReadyRun (get : Nat → GetResult) (healthFunc : ExtensionObject → Option HealthErr)
    (postReady : Option (Option HealthErr)) (interval severeThreshold timeout : Nat) :
    LoopResult :=
  readyLoop get healthFunc postReady (severeThreshold / interval) none 0
    (maxAttempts interval timeout)

/-- `WaitUntilObjectReadyWithHealthFunction` from
`pkg/extensions/customresources.go`: runs the retry loop and, on
failure, builds the returned error exactly as the source does — when a
health error was observed, `NewErrorWithCodes(formatErrorMessage(message,
lastObservedError.Error()), ExtractErrorCodes(lastObservedError)...)`;
otherwise a plain error wrapping the retry error's message. -/
def waitFinalError (message : String) (r : LoopResult) : Option GError :=
  -- shared by the ready and deleted waiters, whose sources build the final
  -- error identically (only the message prefix differs)
  match r.termination with
  | .success => none
  | .severe e =>
    match r.lastObserved with
    | some lo => some ⟨formatErrorMessage message lo.msg, extractErrorCodes lo⟩
    | none => some ⟨formatErrorMessage message e.msg, []⟩
  | .timeout e =>
    match r.lastObserved with
    | some lo => some ⟨formatErrorMessage message lo.msg, extractErrorCodes lo⟩
    | none => some ⟨formatErrorMessage message (retryTimeoutMessage e.msg), []⟩

def waitUntilObjectReadyWithHealthFunction (get : Nat → GetResult)
    (healthFunc : ExtensionObject → Option HealthErr) (postReady : Option (Option HealthErr))
    (kind nspace name : String) (interval severeThreshold timeout : Nat) : Option GError :=
  waitFinalError
    ("Error while waiting for " ++ extensionKey kind nspace name ++ " to become ready")
    (waitReadyRun get healthFunc postReady interval severeThreshold timeout)

/-- Modelled from the spec: `health.ObjectHasAnnotationWithValue` of
`pkg/utils/kubernetes/health` is not under the source tree.  Per §4.3
step 2, a missing or differing timestamp annotation means "we are
observing a stale or pre-trigger snapshot" and is a plain (uncoded,
always-minor) error. -/
def objectHasAnnotationWithValue (key value : String) (obj : ExtensionObject) :
    Option HealthErr :=
  match annotationLookup obj.annotations key with
  | none => some (.plain ("object does not have " ++ key ++ " annotation"))
  | some v =>
    if v = value then none
    else some (.plain ("object's " ++ key ++ " annotation is not " ++ value))

/-- Modelled from the spec: `health.CheckExtensionObject` of
`pkg/utils/kubernetes/health` is not under the source tree.  §3 defines
readiness of an observed object by its last operation having state
Succeeded ("an object is 'ready' only if its `LastOperation.State ==
Succeeded`", with the timestamp freshness handled by the separate
annotation check); §8 makes Succeeded sufficient absent a timestamp
mismatch. -/
def checkExtensionObject (obj : ExtensionObject) : Option HealthErr :=
  match obj.lastOperation with
  | none => some (.plain "extension object did not record a last operation yet")
  | some op =>
    if op.state = .succeeded then none
    else some (.plain "extension object is not ready yet")

/-- Modelled from the spec: `health.And` combines health checks, first
failure wins. -/
def healthAnd (fs : List (ExtensionObject → Option HealthErr)) (obj : ExtensionObject) :
    Option HealthErr :=
  match fs with
  | [] => none
  | f :: rest =>
    match f obj with
    | some e => some e
    | none => healthAnd rest obj

/-- `WaitUntilExtensionObjectReady` from
`pkg/extensions/customresources.go`: when the passed object carries a
timestamp annotation, an `ObjectHasAnnotationWithValue` freshness check
is prepended to `CheckExtensionObject`, and the combined check is
handed to `WaitUntilObjectReadyWithHealthFunction`. -/
def waitUntilExtensionObjectReady (get : Nat → GetResult) (obj : ExtensionObject)
    (kind : String) (interval severeThreshold timeout : Nat)
    (postReady : Option (Option HealthErr)) : Option GError :=
  let healthFuncs :=
    match annotationLookup obj.annotations gardenerTimestamp with
    | some expectedTimestamp =>
      [objectHasAnnotationWithValue gardenerTimestamp expectedTimestamp,
        checkExtensionObject]
    | none => [checkExtensionObject]
  waitUntilObjectReadyWithHealthFunction get (healthAnd healthFuncs) postReady kind
    obj.nspace obj.name interval severeThreshold timeout

theorem readyLoop_no_success (get : Nat → GetResult)
    (healthFunc : ExtensionObject → Option HealthErr) (postReady : Option (Option HealthErr))
    (threshold : Nat)
    (hfail : ∀ k o, get k = .found o → healthFunc o ≠ none) :
    ∀ (fuel k : Nat) (lo : Option HealthErr),
      (readyLoop get healthFunc postReady threshold lo k fuel).termination ≠ .success := by
  intro fuel
  induction fuel with
  | zero =>
    intro k lo
    simp [readyLoop]
  | succ fuel ih =>
    intro k lo
    simp only [readyLoop]
    cases hg : get k with
    | storeErr m => simp
    | notFound =>
      cases fuel with
      | zero => simp
      | succ f => exact ih (k + 1) lo
    | found o =>
      cases hh : healthFunc o with
      | none => exact absurd hh (hfail k o hg)
      | some e =>
        simp only [hh]
        by_cases hcond : isCoded e = true ∧ k + 1 > threshold
        · rw [if_pos hcond]
          simp
        · rw [if_neg hcond]
          cases fuel with
          | zero => simp
          | succ f => exact ih (k + 1) (some e)

theorem readyLoop_coded_severe (get : Nat → GetResult)
    (healthFunc : ExtensionObject → Option HealthErr) (postReady : Option (Option HealthErr))
    (threshold : Nat) (o : ExtensionObject) (m : String) (cs : List String)
    (hget : ∀ j, get j = .found o)
    (hh : healthFunc o = some (.coded m cs)) :
    ∀ (fuel k : Nat) (lo : Option HealthErr), threshold < k + fuel → k ≤ threshold →
      readyLoop get healthFunc postReady threshold lo k fuel =
        ⟨.severe (.coded m cs), some (.coded m cs), threshold⟩ := by
  intro fuel
  induction fuel with
  | zero =>
    intro k lo hgt hle
    omega
  | succ fuel ih =>
    intro k lo hgt hle
    simp only [readyLoop, hget k, hh]
    by_cases hk : k = threshold
    · rw [if_pos (by simp [isCoded]; omega)]
      rw [hk]
    · have hklt : k < threshold := by omega
      rw [if_neg (by simp [isCoded]; omega)]
      have hfuel : 1 ≤ fuel := by omega
      cases fuel with
      | zero => omega
      | succ f => exact ih (k + 1) (some (.coded m cs)) (by omega) (by omega)

theorem readyLoop_plain_timeout (get : Nat → GetResult)
    (healthFunc : ExtensionObject → Option HealthErr) (postReady : Option (Option HealthErr))
    (threshold : Nat) (o : ExtensionObject) (m : String)
    (hget : ∀ j, get j = .found o)
    (hh : healthFunc o = some (.plain m)) :
    ∀ (fuel k : Nat) (lo : Option HealthErr), 1 ≤ fuel →
      readyLoop get healthFunc postReady threshold lo k fuel =
        ⟨.timeout (.plain m), some (.plain m), k + fuel - 1⟩ := by
  intro fuel
  induction fuel with
  | zero =>
    intro k lo hf
    omega
  | succ fuel ih =>
    intro k lo hf
    simp only [readyLoop, hget k, hh]
    rw [if_neg (by simp [isCoded])]
    cases fuel with
    | zero => simp
    | succ f =>
      rw [ih (k + 1) (some (.plain m)) (by omega)]
      simp only [LoopResult.mk.injEq, true_and]
      omega

theorem maxAttempts_pos (interval timeout : Nat) (hi : 0 < interval) (ht : 0 < timeout) :
    0 < maxAttempts interval timeout := by
  rw [maxAttempts]
  exact Nat.div_pos (by omega) hi

theorem maxAttempts_gt_threshold (interval severeThreshold timeout : Nat)
    (hi : 0 < interval) (hst : severeThreshold < timeout) :
    severeThreshold / interval < maxAttempts interval timeout := by
  have h1 : severeThreshold / interval + 1 = (severeThreshold + interval) / interval := by
    rw [Nat.add_div_right _ hi]
  have h2 : (severeThreshold + interval) / interval ≤ maxAttempts interval timeout := by
    rw [maxAttempts]
    exact Nat.div_le_div_right (by omega)
  omega

theorem maxAttempts_mul_ge (interval timeout : Nat) (hi : 0 < interval) :
    timeout ≤ maxAttempts interval timeout * interval := by
  have h := (Nat.div_lt_iff_lt_mul hi).mp
    (Nat.lt_succ_self ((timeout + interval - 1) / interval))
  rw [Nat.succ_mul] at h
  rw [maxAttempts]
  omega

theorem waitFinalError_ne_none (message : String) (r : LoopResult)
    (h : r.termination ≠ .success) : waitFinalError message r ≠ none := by
  obtain ⟨tm, lo, k⟩ := r
  cases tm with
  | success => exact absurd rfl h
  | severe e => cases lo <;> simp [waitFinalError]
  | timeout e => cases lo <;> simp [waitFinalError]

theorem readyLoop_first_success (get : Nat → GetResult)
    (healthFunc : ExtensionObject → Option HealthErr) (threshold : Nat)
    (o : ExtensionObject) (h0 : get 0 = .found o) (hh : healthFunc o = none) (n : Nat) :
    readyLoop get healthFunc none threshold none 0 (n + 1) = ⟨.success, none, 0⟩ := by
  simp [readyLoop, h0, hh]

/-- C1: for every extension object whose observed status has
`LastOperation.State == Succeeded` and whose timestamp annotation (when
an expected timestamp was set by the driver) equals the expected value,
`WaitUntilExtensionObjectReady` returns nil within one poll interval
(it succeeds on the very first attempt, which runs at elapsed time 0,
whatever the later observations are); and it never returns nil based on
observations whose timestamp annotation differs from the expected
timestamp. -/
theorem claim1_ready_freshness (get : Nat → GetResult) (obj o : ExtensionObject)
    (kind : String) (interval severeThreshold timeout : Nat)
    (hi : 0 < interval) (ht : 0 < timeout)
    (h0 : get 0 = .found o)
    (hsucc : ∃ op, o.lastOperation = some op ∧ op.state = .succeeded)
    (hfresh : ∀ ts, annotationLookup obj.annotations gardenerTimestamp = some ts →
      annotationLookup o.annotations gardenerTimestamp = some ts) :
    waitUntilExtensionObjectReady get obj kind interval severeThreshold timeout none = none
    ∧ ∀ (ts : String) (postReady : Option (Option HealthErr)) (get2 : Nat → GetResult),
        annotationLookup obj.annotations gardenerTimestamp = some ts →
        (∀ k o2, get2 k = .found o2 →
          annotationLookup o2.annotations gardenerTimestamp ≠ some ts) →
        waitUntilExtensionObjectReady get2 obj kind interval severeThreshold timeout
          postReady ≠ none := by
  obtain ⟨op, hop, hstate⟩ := hsucc
  constructor
  · obtain ⟨n, hn⟩ : ∃ n, maxAttempts interval timeout = n + 1 :=
      ⟨maxAttempts interval timeout - 1, by
        have := maxAttempts_pos interval timeout hi ht
        omega⟩
    rw [waitUntilExtensionObjectReady]
    cases hts : annotationLookup obj.annotations gardenerTimestamp with
    | some ts =>
      simp only [waitUntilObjectReadyWithHealthFunction, waitReadyRun, hn]
      rw [readyLoop_first_success _ _ _ o h0
        (by simp [healthAnd, objectHasAnnotationWithValue, hfresh ts hts,
          checkExtensionObject, hop, hstate])]
      rfl
    | none =>
      simp only [waitUntilObjectReadyWithHealthFunction, waitReadyRun, hn]
      rw [readyLoop_first_success _ _ _ o h0
        (by simp [healthAnd, checkExtensionObject, hop, hstate])]
      rfl
  · intro ts postReady get2 hts hmiss
    rw [waitUntilExtensionObjectReady]
    rw [hts]
    apply waitFinalError_ne_none
    apply readyLoop_no_success
    intro k o2 hg
    cases hlk : annotationLookup o2.annotations gardenerTimestamp with
    | none => simp [healthAnd, objectHasAnnotationWithValue, hlk]
    | some v =>
      have hne : ¬(v = ts) := by
        intro hv
        exact hmiss k o2 hg (by rw [hlk, hv])
      simp [healthAnd, objectHasAnnotationWithValue, hlk, hne]

/-- A concrete ready extension object, used by the witnesses below. -/
def sampleReadyObject : ExtensionObject :=
  { kind := "Worker"
    nspace := "shoot--foo--bar"
    name := "worker"
    extensionType := "local"
    purpose := none
    annotations := [(gardenerTimestamp, "2023-01-02T03:04:05Z")]
    deletionTimestamp := none
    lastOperation := some ⟨.reconcile, .succeeded⟩
    lastError := none
    state := none
    resources := [] }

/-- A concrete stale observation of `sampleReadyObject` (older timestamp
annotation), used by the witnesses below. -/
def sampleStaleObject : ExtensionObject :=
  { sampleReadyObject with annotations := [(gardenerTimestamp, "2023-01-01T00:00:00Z")] }

theorem claim1_ready_freshness_witness :
    waitUntilExtensionObjectReady (fun _ => .found sampleReadyObject) sampleReadyObject
      "Worker" 1000 3000 10000 none = none
    ∧ waitUntilExtensionObjectReady (fun _ => .found sampleStaleObject) sampleReadyObject
      "Worker" 1000 3000 10000 none ≠ none := by
  have h := claim1_ready_freshness (fun _ => .found sampleReadyObject) sampleReadyObject
    sampleReadyObject "Worker" 1000 3000 10000 (by decide) (by decide) rfl
    ⟨⟨.reconcile, .succeeded⟩, rfl, rfl⟩ (fun ts hts => hts)
  refine ⟨h.1, ?_⟩
  exact h.2 "2023-01-02T03:04:05Z" none (fun _ => .found sampleStaleObject) rfl
    (fun k o2 hg => by
      cases hg
      decide)

/-- C2: if the health predicate fails on every poll with an error
carrying explicit error codes, `WaitUntilObjectReadyWithHealthFunction`
aborts with a SevereError on the attempt running at elapsed time
`(severeThreshold / interval) * interval ≤ severeThreshold`, even when
`timeout > severeThreshold`; if it fails on every poll with an error
carrying no codes, the run times out only once the attempt budget is
exhausted: the stop attempt is the last one, and the next tick would be
at or past `timeout`.  In both cases the overall wait returns a non-nil
error. -/
theorem claim2_severe_threshold_vs_timeout (interval severeThreshold timeout : Nat)
    (hi : 0 < interval) (hst : severeThreshold < timeout)
    (o : ExtensionObject) (m : String) (cs : List String)
    (get : Nat → GetResult) (hget : ∀ j, get j = .found o)
    (postReady : Option (Option HealthErr)) :
    (∀ healthFunc : ExtensionObject → Option HealthErr,
      healthFunc o = some (.coded m cs) →
      (waitReadyRun get healthFunc postReady interval severeThreshold timeout).termination =
          .severe (.coded m cs)
        ∧ (waitReadyRun get healthFunc postReady interval severeThreshold
            timeout).stopIndex * interval ≤ severeThreshold
        ∧ ∀ kind nspace name, waitUntilObjectReadyWithHealthFunction get healthFunc
            postReady kind nspace name interval severeThreshold timeout ≠ none)
    ∧ (∀ healthFunc : ExtensionObject → Option HealthErr,
      healthFunc o = some (.plain m) →
      (waitReadyRun get healthFunc postReady interval severeThreshold timeout).termination =
          .timeout (.plain m)
        ∧ (waitReadyRun get healthFunc postReady interval severeThreshold
            timeout).stopIndex = maxAttempts interval timeout - 1
        ∧ timeout ≤ ((waitReadyRun get healthFunc postReady interval severeThreshold
            timeout).stopIndex + 1) * interval
        ∧ ∀ kind nspace name, waitUntilObjectReadyWithHealthFunction get healthFunc
            postReady kind nspace name interval severeThreshold timeout ≠ none) := by
  have hgt := maxAttempts_gt_threshold interval severeThreshold timeout hi hst
  have hpos := maxAttempts_pos interval timeout hi (by omega)
  constructor
  · intro healthFunc hh
    have hrun : waitReadyRun get healthFunc postReady interval severeThreshold timeout =
        ⟨.severe (.coded m cs), some (.coded m cs), severeThreshold / interval⟩ := by
      rw [waitReadyRun]
      exact readyLoop_coded_severe get healthFunc postReady _ o m cs hget hh
        (maxAttempts interval timeout) 0 none (by simpa using hgt) (Nat.zero_le _)
    refine ⟨by rw [hrun], by rw [hrun]; exact Nat.div_mul_le_self _ _, ?_⟩
    intro kind nspace name
    rw [waitUntilObjectReadyWithHealthFunction]
    apply waitFinalError_ne_none
    rw [hrun]
    simp
  · intro healthFunc hh
    have hrun : waitReadyRun get healthFunc postReady interval severeThreshold timeout =
        ⟨.timeout (.plain m), some (.plain m), maxAttempts interval timeout - 1⟩ := by
      rw [waitReadyRun]
      rw [readyLoop_plain_timeout get healthFunc postReady _ o m hget hh
        (maxAttempts interval timeout) 0 none (by omega)]
      simp
    refine ⟨by rw [hrun], by rw [hrun], ?_, ?_⟩
    · rw [hrun]
      have := maxAttempts_mul_ge interval timeout hi
      have heq : maxAttempts interval timeout - 1 + 1 = maxAttempts interval timeout := by
        omega
      rw [heq]
      exact this
    · intro kind nspace name
      rw [waitUntilObjectReadyWithHealthFunction]
      apply waitFinalError_ne_none
      rw [hrun]
      simp

theorem claim2_severe_threshold_vs_timeout_witness :
    (waitReadyRun (fun _ => .found sampleReadyObject)
      (fun _ => some (.coded "boom" ["ERR_INFRA_DEPENDENCIES"])) none 10 35 100).termination =
        .severe (.coded "boom" ["ERR_INFRA_DEPENDENCIES"])
    ∧ (waitReadyRun (fun _ => .found sampleReadyObject)
      (fun _ => some (.plain "minor")) none 10 35 100).termination = .timeout (.plain "minor") := by
  have h := claim2_severe_threshold_vs_timeout 10 35 100 (by decide) (by decide)
    sampleReadyObject "boom" ["ERR_INFRA_DEPENDENCIES"]
    (fun _ => .found sampleReadyObject) (fun _ => rfl) none
  refine ⟨(h.1 (fun _ => some (.coded "boom" ["ERR_INFRA_DEPENDENCIES"])) rfl).1, ?_⟩
  have h2 := claim2_severe_threshold_vs_timeout 10 35 100 (by decide) (by decide)
    sampleReadyObject "minor" []
    (fun _ => .found sampleReadyObject) (fun _ => rfl) none
  exact (h2.2 (fun _ => some (.plain "minor")) rfl).1

/-! ## Deletion confirmer and cleanup waiter -/

/-- Outcome of `gutil.ConfirmDeletion` as observed by
`DeleteExtensionObject`. -/
inductive ConfirmDeletionResult
  | ok
  | notFound
  | failed (msg : String)
  deriving DecidableEq, Repr

/-- Outcome of the `client.Delete` call. -/
inductive DeleteResult
  | ok
  | notFound
  | failed (msg : String)
  deriving DecidableEq, Repr

/-- Modelled from the spec: `gutil.ConfirmDeletion` of
`pkg/utils/gardener` is not under the source tree.  Per §4.2/§4.4 it
patches the deletion-confirmation annotation and fresh timestamp onto
the latest object revision and "returns NotFound if the object vanished
concurrently"; for a store without concurrent writers its outcome is
determined by whether the object exists. -/
def confirmDeletionOutcome (objExists : Bool) : ConfirmDeletionResult :=
  if objExists then .ok else .notFound

/-- `DeleteExtensionObject` from `pkg/extensions/customresources.go`:
a NotFound from `ConfirmDeletion` is success, any other confirm error
is returned, and the delete itself runs under `client.IgnoreNotFound`. -/
def deleteExtensionObject (confirm : ConfirmDeletionResult) (del : DeleteResult) :
    Option GError :=
  match confirm with
  | .notFound => none
  | .failed m => some ⟨m, []⟩
  | .ok =>
    match del with
    | .ok => none
    | .notFound => none
    | .failed m => some ⟨m, []⟩

/-- The body of `WaitUntilExtensionObjectDeleted`
(`pkg/extensions/customresources.go`) iterated by the modelled retry
driver: NotFound is `retry.Ok()`, other get errors are severe, and a
present object yields a minor "still present" error; when the object's
`Status.LastError` is populated it is recorded as
`lastObservedError = NewErrorWithCodes(lastErr.Description,
lastErr.Codes...)` and echoed in the minor error's message. -/
def deletedLoop (get : Nat → GetResult) (kind nspace name : String)
    (lastObserved : Option HealthErr) (k : Nat) : Nat → LoopResult
  | 0 => ⟨.timeout (.plain "context deadline exceeded"), lastObserved, k⟩
  | fuel + 1 =>
    match get k with
    | .notFound => ⟨.success, lastObserved, k⟩
    | .storeErr m => ⟨.severe (.plain m), lastObserved, k⟩
    | .found obj =>
      let lo :=
        match obj.lastError with
        | some le => some (HealthErr.coded le.description le.codes)
        | none => lastObserved
      let message := extensionKey kind nspace name ++ " is still present" ++
        (match lo with
         | some e => ", last observed error: " ++ e.msg
         | none => "")
      match fuel with
      | 0 => ⟨.timeout (.plain message), lo, k⟩
      | _ + 1 => deletedLoop get kind nspace name lo (k + 1) fuel

/-- The full retry run of `WaitUntilExtensionObjectDeleted`. -/
def waitDeletedRun (get : Nat → GetResult) (kind nspace name : String)
    (interval timeout : Nat) : LoopResult :=
  deletedLoop get kind nspace name none 0 (maxAttempts interval timeout)

/-- `WaitUntilExtensionObjectDeleted` from
`pkg/extensions/customresources.go`: polls until NotFound; on failure
the returned error is built exactly as in the source (retaining
`lastObservedError` and its codes when one was recorded). -/
def waitUntilExtensionObjectDeleted (get : Nat → GetResult) (obj : ExtensionObject)
    (kind : String) (interval timeout : Nat) : Option GError :=
  waitFinalError ("Failed to delete " ++ extensionKey kind obj.nspace obj.name)
    (waitDeletedRun get kind obj.nspace obj.name interval timeout)

/-- C6: for an extension object that does not exist in the store,
`DeleteExtensionObject` returns nil (whatever the delete call would
have answered), and `WaitUntilExtensionObjectDeleted` returns nil on
its first poll (whatever later observations would have been): NotFound
on the destroy and cleanup-wait paths is success. -/
theorem claim6_notfound_is_success (del : DeleteResult) (get : Nat → GetResult)
    (obj : ExtensionObject) (kind : String) (interval timeout : Nat)
    (hi : 0 < interval) (ht : 0 < timeout) (h0 : get 0 = .notFound) :
    deleteExtensionObject (confirmDeletionOutcome false) del = none
    ∧ waitUntilExtensionObjectDeleted get obj kind interval timeout = none := by
  refine ⟨rfl, ?_⟩
  obtain ⟨n, hn⟩ : ∃ n, maxAttempts interval timeout = n + 1 :=
    ⟨maxAttempts interval timeout - 1, by
      have := maxAttempts_pos interval timeout hi ht
      omega⟩
  rw [waitUntilExtensionObjectDeleted, waitDeletedRun, hn]
  simp only [deletedLoop, h0]
  rfl

theorem claim6_notfound_is_success_witness :
    deleteExtensionObject (confirmDeletionOutcome false) .ok = none
    ∧ waitUntilExtensionObjectDeleted (fun _ => .notFound) sampleReadyObject "Worker"
        1000 5000 = none :=
  claim6_notfound_is_success .ok (fun _ => .notFound) sampleReadyObject "Worker"
    1000 5000 (by decide) (by decide) rfl

theorem waitFinalError_of_lastObserved (message : String) (r : LoopResult)
    (lo : HealthErr) (hlo : r.lastObserved = some lo) (h : r.termination ≠ .success) :
    waitFinalError message r =
      some ⟨formatErrorMessage message lo.msg, extractErrorCodes lo⟩ := by
  obtain ⟨tm, lo', k⟩ := r
  simp only at hlo
  subst hlo
  cases tm with
  | success => exact absurd rfl h
  | severe e => rfl
  | timeout e => rfl

/-- C7: whenever `WaitUntilObjectReadyWithHealthFunction` or
`WaitUntilExtensionObjectDeleted` fails after having observed at least
one domain error (recorded in `lastObservedError`), the returned error
is exactly `NewErrorWithCodes` of the wrapped last observed error's
description together with that error's codes — not a generic timeout
error. -/
theorem claim7_failure_retains_last_observed_error
    (get : Nat → GetResult) (healthFunc : ExtensionObject → Option HealthErr)
    (postReady : Option (Option HealthErr)) (obj : ExtensionObject)
    (kind nspace name : String) (interval severeThreshold timeout : Nat)
    (lo lo2 : HealthErr) :
    ((waitReadyRun get healthFunc postReady interval severeThreshold
        timeout).lastObserved = some lo →
      (waitReadyRun get healthFunc postReady interval severeThreshold
        timeout).termination ≠ .success →
      waitUntilObjectReadyWithHealthFunction get healthFunc postReady kind nspace name
          interval severeThreshold timeout =
        some ⟨formatErrorMessage ("Error while waiting for " ++
          extensionKey kind nspace name ++ " to become ready") lo.msg,
          extractErrorCodes lo⟩)
    ∧ ((waitDeletedRun get kind obj.nspace obj.name interval timeout).lastObserved =
        some lo2 →
      (waitDeletedRun get kind obj.nspace obj.name interval timeout).termination ≠
        .success →
      waitUntilExtensionObjectDeleted get obj kind interval timeout =
        some ⟨formatErrorMessage ("Failed to delete " ++
          extensionKey kind obj.nspace obj.name) lo2.msg, extractErrorCodes lo2⟩) := by
  constructor
  · intro hlo hterm
    rw [waitUntilObjectReadyWithHealthFunction]
    exact waitFinalError_of_lastObserved _ _ lo hlo hterm
  · intro hlo hterm
    rw [waitUntilExtensionObjectDeleted]
    exact waitFinalError_of_lastObserved _ _ lo2 hlo hterm

/-- A concrete extension object stuck with a populated
`Status.LastError`, used by the witnesses below. -/
def sampleStuckObject : ExtensionObject :=
  { sampleReadyObject with
    lastOperation := some ⟨.delete, .error⟩
    lastError := some ⟨"disk detach failed", ["ERR_INFRA_QUOTA_EXCEEDED"]⟩ }

theorem claim7_failure_retains_last_observed_error_witness :
    waitUntilObjectReadyWithHealthFunction (fun _ => .found sampleStuckObject)
        (fun o => o.lastError.map fun le => .coded le.description le.codes) none
        "Worker" "shoot--foo--bar" "worker" 1000 2000 3000 =
      some ⟨formatErrorMessage ("Error while waiting for " ++
        extensionKey "Worker" "shoot--foo--bar" "worker" ++ " to become ready")
        "disk detach failed", ["ERR_INFRA_QUOTA_EXCEEDED"]⟩
    ∧ waitUntilExtensionObjectDeleted (fun _ => .found sampleStuckObject)
        sampleStuckObject "Worker" 1000 3000 =
      some ⟨formatErrorMessage ("Failed to delete " ++
        extensionKey "Worker" "shoot--foo--bar" "worker")
        "disk detach failed", ["ERR_INFRA_QUOTA_EXCEEDED"]⟩ := by
  have h := claim7_failure_retains_last_observed_error
    (fun _ => .found sampleStuckObject)
    (fun o => o.lastError.map fun le => .coded le.description le.codes) none
    sampleStuckObject "Worker" "shoot--foo--bar" "worker" 1000 2000 3000
    (.coded "disk detach failed" ["ERR_INFRA_QUOTA_EXCEEDED"])
    (.coded "disk detach failed" ["ERR_INFRA_QUOTA_EXCEEDED"])
  exact ⟨h.1 (by decide) (by decide), h.2 (by decide) (by decide)⟩

/-! ## Migration driver -/

/-- The Migrate=Succeeded check of `WaitUntilExtensionObjectMigrated`
(`pkg/extensions/customresources.go`): the observed object's status has
a last operation with `Type == Migrate` and `State == Succeeded`. -/
def migrateSucceeded (obj : ExtensionObject) : Bool :=
  match obj.lastOperation with
  | some op => op.type == .migrate && op.state == .succeeded
  | none => false

/-- The minor-error message built by `WaitUntilExtensionObjectMigrated`
for a not-yet-migrated observation: it reports the object's kind, the
polled name and the extension type (`Spec.Type`) — it does not mention
the observed operation type or state. -/
def migratedNotSucceededMessage (obj : ExtensionObject) (name : String) : String :=
  "lastOperation for " ++ obj.kind ++ " with name " ++ name ++ " and type " ++
    obj.extensionType ++ " is not Migrate=Succeeded"

/-- The body of `WaitUntilExtensionObjectMigrated` iterated by the
modelled retry driver: NotFound is `retry.Ok()` (immediate success),
other store errors are severe, a Migrate/Succeeded last operation is
success, and everything else is a minor error until timeout. -/
def migratedLoop (get : Nat → GetResult) (name : String) (k : Nat) :
    Nat → RetryTermination × Nat
  | 0 => (.timeout (.plain "context deadline exceeded"), k)
  | fuel + 1 =>
    match get k with
    | .notFound => (.success, k)
    | .storeErr m => (.severe (.plain m), k)
    | .found obj =>
      if migrateSucceeded obj then (.success, k)
      else
        match fuel with
        | 0 => (.timeout (.plain (migratedNotSucceededMessage obj name)), k)
        | _ + 1 => migratedLoop get name (k + 1) fuel

/-- `WaitUntilExtensionObjectMigrated` from
`pkg/extensions/customresources.go`: returns the retry error as-is (no
wrapping happens for this waiter); on timeout the modelled retry error
wraps the last attempt's minor-error message. -/
def waitUntilExtensionObjectMigrated (get : Nat → GetResult) (obj : ExtensionObject)
    (interval timeout : Nat) : Option GError :=
  match migratedLoop get obj.name 0 (maxAttempts interval timeout) with
  | (.success, _) => none
  | (.severe e, _) => some ⟨e.msg, []⟩
  | (.timeout e, _) => some ⟨retryTimeoutMessage e.msg, []⟩

theorem migratedLoop_all_unmigrated (get : Nat → GetResult) (name : String)
    (os : Nat → ExtensionObject)
    (hget : ∀ j, get j = .found (os j)) (hun : ∀ j, migrateSucceeded (os j) = false) :
    ∀ (fuel k : Nat), 1 ≤ fuel →
      migratedLoop get name k fuel =
        (.timeout (.plain (migratedNotSucceededMessage (os (k + fuel - 1)) name)),
          k + fuel - 1) := by
  intro fuel
  induction fuel with
  | zero => intro k hf; omega
  | succ fuel ih =>
    intro k hf
    simp only [migratedLoop, hget k, hun k, Bool.false_eq_true, if_false]
    cases fuel with
    | zero => simp
    | succ f =>
      rw [ih (k + 1) (by omega)]
      have heq : k + 1 + (f + 1) - 1 = k + (f + 1 + 1) - 1 := by omega
      rw [heq]

/-- C8 (amended): `WaitUntilExtensionObjectMigrated` returns nil
immediately when the object is not found, and returns nil when the
observed last operation is Migrate/Succeeded; every other
LastOperation/State combination is retried as a minor error until the
timeout, at which point the returned error wraps the message reporting
the last observed object's kind, the polled name and its extension type
(not the observed operation type/state). -/
theorem claim8_migrated_wait_behaviour (get : Nat → GetResult) (obj o : ExtensionObject)
    (interval timeout : Nat) (hi : 0 < interval) (ht : 0 < timeout) :
    (get 0 = .notFound → waitUntilExtensionObjectMigrated get obj interval timeout = none)
    ∧ (get 0 = .found o → migrateSucceeded o = true →
        waitUntilExtensionObjectMigrated get obj interval timeout = none)
    ∧ ∀ os : Nat → ExtensionObject, (∀ j, get j = .found (os j)) →
        (∀ j, migrateSucceeded (os j) = false) →
        waitUntilExtensionObjectMigrated get obj interval timeout =
          some ⟨retryTimeoutMessage (migratedNotSucceededMessage
            (os (maxAttempts interval timeout - 1)) obj.name), []⟩ := by
  obtain ⟨n, hn⟩ : ∃ n, maxAttempts interval timeout = n + 1 :=
    ⟨maxAttempts interval timeout - 1, by
      have := maxAttempts_pos interval timeout hi ht
      omega⟩
  refine ⟨?_, ?_, ?_⟩
  · intro h0
    rw [waitUntilExtensionObjectMigrated, hn]
    simp [migratedLoop, h0]
  · intro h0 hmig
    rw [waitUntilExtensionObjectMigrated, hn]
    simp [migratedLoop, h0, hmig]
  · intro os hget hun
    rw [waitUntilExtensionObjectMigrated,
      migratedLoop_all_unmigrated get obj.name os hget hun _ 0
        (by omega)]
    simp [HealthErr.msg]

theorem claim8_migrated_wait_behaviour_witness :
    (waitUntilExtensionObjectMigrated (fun _ => .notFound) sampleReadyObject 1000 3000 =
      none)
    ∧ waitUntilExtensionObjectMigrated
        (fun _ => .found { sampleReadyObject with
          lastOperation := some ⟨.migrate, .succeeded⟩ }) sampleReadyObject 1000 3000 =
      none := by
  have h1 := claim8_migrated_wait_behaviour (fun _ => .notFound) sampleReadyObject
    sampleReadyObject 1000 3000 (by decide) (by decide)
  have h2 := claim8_migrated_wait_behaviour
    (fun _ => .found { sampleReadyObject with lastOperation := some ⟨.migrate, .succeeded⟩ })
    sampleReadyObject
    { sampleReadyObject with lastOperation := some ⟨.migrate, .succeeded⟩ }
    1000 3000 (by decide) (by decide)
  exact ⟨h1.1 rfl, h2.2.1 rfl (by decide)⟩

/-- Two observed objects that differ only in the reported last-operation
state (`Error` versus `Failed`), used to refute C8's final clause. -/
def sampleUnmigratedError : ExtensionObject :=
  { sampleReadyObject with lastOperation := some ⟨.reconcile, .error⟩ }

/-- See `sampleUnmigratedError`. -/
def sampleUnmigratedFailed : ExtensionObject :=
  { sampleReadyObject with lastOperation := some ⟨.reconcile, .failed⟩ }

/-- C8 counterexample: the claim says that at timeout "the last observed
operation type and state are reported in the returned error".  Two runs
whose observations differ only in the last operation's state (and both
of which fail) return the *identical* error, so the returned error
cannot report the observed operation state (nor, symmetrically, its
type): the message only contains the object kind, name and extension
type. -/
theorem claim8_migrated_wait_counterexample :
    waitUntilExtensionObjectMigrated (fun _ => .found sampleUnmigratedError)
        sampleReadyObject 1000 3000 =
      waitUntilExtensionObjectMigrated (fun _ => .found sampleUnmigratedFailed)
        sampleReadyObject 1000 3000
    ∧ waitUntilExtensionObjectMigrated (fun _ => .found sampleUnmigratedError)
        sampleReadyObject 1000 3000 ≠ none
    ∧ sampleUnmigratedError.lastOperation ≠ sampleUnmigratedFailed.lastOperation := by
  refine ⟨?_, ?_, ?_⟩ <;> decide

/-! ## Timestamp/operation annotator and the relay deploy components -/

/-- A wall-clock instant already converted to UTC (the code always
formats `Now().UTC()`): calendar fields plus nanoseconds. -/
structure GoTime where
  year : Nat
  month : Nat
  day : Nat
  hour : Nat
  minute : Nat
  second : Nat
  nanos : Nat
  deriving DecidableEq, Repr

def pad2 (n : Nat) : String :=
  if n < 10 then "0" ++ toString n else toString n

def pad4 (n : Nat) : String :=
  if n < 10 then "000" ++ toString n
  else if n < 100 then "00" ++ toString n
  else if n < 1000 then "0" ++ toString n
  else toString n

def pad9 (n : Nat) : String :=
  let s := toString n
  String.mk (List.replicate (9 - s.length) '0') ++ s

def trimTrailingZeros (s : String) : String :=
  String.mk ((s.toList.reverse.dropWhile (fun c => c = '0')).reverse)

/-- The fractional-seconds part produced by Go's `.999999999`
placeholder: omitted when zero, otherwise a dot plus the 9 nanosecond
digits with trailing zeros removed. -/
def nanosFrac (n : Nat) : String :=
  if n = 0 then "" else "." ++ trimTrailingZeros (pad9 n)

/-- Go's `time.Time.String()` for a UTC instant: layout
`2006-01-02 15:04:05.999999999 -0700 MST`, which for `.UTC()` renders
the zone as `+0000 UTC`. -/
def goTimeUTCString (t : GoTime) : String :=
  pad4 t.year ++ "-" ++ pad2 t.month ++ "-" ++ pad2 t.day ++ " " ++
    pad2 t.hour ++ ":" ++ pad2 t.minute ++ ":" ++ pad2 t.second ++
    nanosFrac t.nanos ++ " +0000 UTC"

/-- Go's `time.RFC3339Nano` format for a UTC instant:
`2006-01-02T15:04:05.999999999Z`. -/
def rfc3339NanoUTCString (t : GoTime) : String :=
  pad4 t.year ++ "-" ++ pad2 t.month ++ "-" ++ pad2 t.day ++ "T" ++
    pad2 t.hour ++ ":" ++ pad2 t.minute ++ ":" ++ pad2 t.second ++
    nanosFrac t.nanos ++ "Z"

/-- `AnnotateObjectWithOperation` from
`pkg/extensions/customresources.go`: sets
`annotations[operation] = operation` and
`annotations[timestamp] = TimeNow().UTC().String()` on the object and
patches it; the returned value is the patched object. -/
def annotateObjectWithOperation (now : GoTime) (obj : ExtensionObject)
    (operation : String) : ExtensionObject :=
  { obj with
    annotations :=
      annotationSet
        (annotationSet obj.annotations gardenerOperation operation)
        gardenerTimestamp (goTimeUTCString now) }

/-- The `Values` of the BackupUpload/BackupDownload components
(`pkg/component/extensions/backupupload`, `.../backupdownload`). -/
structure RelayValues where
  name : String
  type : String
  entryName : String
  filePath : String
  data : Bytes
  deriving DecidableEq, Repr

/-- The spec of a relay object.  `BackupUploadSpec` carries a `Data`
payload; `BackupDownloadSpec` has no data field at all, which the model
renders as `data = none`. -/
structure RelaySpec where
  type : String
  entryName : String
  filePath : String
  data : Option Bytes
  deriving DecidableEq, Repr

/-- A relay (`BackupUpload`/`BackupDownload`) object: annotations, spec,
and the status fields the protocol exchanges. -/
structure RelayObject where
  annotations : List (String × String)
  spec : RelaySpec
  statusData : Option Bytes
  lastOperationState : Option GLastOperationState
  deriving DecidableEq, Repr

/-- The zero object `emptyBackupUpload`/`emptyBackupDownload` builds
(name/namespace identity is tracked outside the model). -/
def emptyRelayObject : RelayObject :=
  { annotations := []
    spec := { type := "", entryName := "", filePath := "", data := none }
    statusData := none
    lastOperationState := none }

/-- Modelled from the spec: `controllerutils.GetAndCreateOrMergePatch`
is not under the source tree.  Per §4.1/§4.2 it reads the latest
revision (or starts from an empty object when absent) and applies the
mutation as an optimistic create-or-patch. -/
def getAndCreateOrMergePatch (current : Option RelayObject)
    (mutate : RelayObject → RelayObject) : RelayObject :=
  mutate (match current with
    | some o => o
    | none => emptyRelayObject)

/-- `backupUpload.Deploy` from
`pkg/component/extensions/backupupload/backupupload.go`: annotates
operation=reconcile and timestamp=`clock.Now().UTC().Format(RFC3339Nano)`
and writes the spec including the `Data` payload. -/
def backupUploadDeploy (now : GoTime) (values : RelayValues)
    (current : Option RelayObject) : RelayObject :=
  getAndCreateOrMergePatch current fun upload =>
    { upload with
      annotations :=
        annotationSet
          (annotationSet upload.annotations gardenerOperation
            gardenerOperationReconcile)
          gardenerTimestamp (rfc3339NanoUTCString now)
      spec := { type := values.type
                entryName := values.entryName
                filePath := values.filePath
                data := some values.data } }

/-- `backupDownload.Deploy` from
`pkg/component/extensions/backupdownload/backupdownload.go`: same
annotations; the written `BackupDownloadSpec` carries no data payload. -/
def backupDownloadDeploy (now : GoTime) (values : RelayValues)
    (current : Option RelayObject) : RelayObject :=
  getAndCreateOrMergePatch current fun download =>
    { download with
      annotations :=
        annotationSet
          (annotationSet download.annotations gardenerOperation
            gardenerOperationReconcile)
          gardenerTimestamp (rfc3339NanoUTCString now)
      spec := { type := values.type
                entryName := values.entryName
                filePath := values.filePath
                data := none } }

/-- A concrete instant with sub-second precision. -/
def sampleTime : GoTime :=
  { year := 2023, month := 1, day := 2, hour := 3, minute := 4, second := 5,
    nanos := 500000000 }

/-- C4 counterexample: `AnnotateObjectWithOperation` writes
`TimeNow().UTC().String()` — Go's default time format
(`2023-01-02 03:04:05.5 +0000 UTC`) — as the `timestamp` annotation,
which is not the RFC3339Nano rendering (`2023-01-02T03:04:05.5Z`) of
that instant, refuting the claim that *every* timestamp annotation
written by the core is RFC3339Nano-formatted.  (The repository's own
tests in `pkg/extensions/customresources_test.go` assert the
`now.UTC().String()` value, so this is the intended behaviour of the
code and the spec sentence is wrong.) -/
theorem claim4_timestamp_format_counterexample :
    annotationLookup
        (annotateObjectWithOperation sampleTime sampleReadyObject
          gardenerOperationReconcile).annotations gardenerTimestamp =
      some "2023-01-02 03:04:05.5 +0000 UTC"
    ∧ annotationLookup
        (annotateObjectWithOperation sampleTime sampleReadyObject
          gardenerOperationReconcile).annotations gardenerTimestamp ≠
      some (rfc3339NanoUTCString sampleTime) := by
  refine ⟨?_, ?_⟩ <;> decide

/-- C4 (amended): every `timestamp` annotation written by the core is
the current UTC wall-clock instant, but in two formats: the
BackupUpload and BackupDownload `Deploy` functions write it as an
RFC3339Nano string, while `AnnotateObjectWithOperation` writes Go's
default `time.Time.String()` rendering.  Both also set the `operation`
annotation. -/
theorem claim4_timestamp_formats (now : GoTime) (obj : ExtensionObject)
    (operation : String) (values : RelayValues) (current : Option RelayObject) :
    annotationLookup
        (annotateObjectWithOperation now obj operation).annotations gardenerTimestamp =
      some (goTimeUTCString now)
    ∧ annotationLookup
        (backupUploadDeploy now values current).annotations gardenerTimestamp =
      some (rfc3339NanoUTCString now)
    ∧ annotationLookup
        (backupDownloadDeploy now values current).annotations gardenerTimestamp =
      some (rfc3339NanoUTCString now)
    ∧ annotationLookup
        (annotateObjectWithOperation now obj operation).annotations gardenerOperation =
      some operation := by
  refine ⟨?_, ?_, ?_, ?_⟩
  · exact annotationLookup_annotationSet _ _ _
  · exact annotationLookup_annotationSet _ _ _
  · exact annotationLookup_annotationSet _ _ _
  · rw [annotateObjectWithOperation]
    simp only
    rw [annotationLookup_annotationSet_ne _ _ _ _ (by decide)]
    exact annotationLookup_annotationSet _ _ _

/-! ## Shoot-state download driver (relay round trip) -/

/-- How the BackupDownload reconciler's `reconcile` ends: success, or
an error causing requeue (`reconcilerutils.ReconcileErr`). -/
inductive ReconcileOutcome
  | success
  | requeue (msg : String)
  deriving DecidableEq, Repr

/-- `reconciler.reconcile` from
`extensions/pkg/controller/backupdownload/reconciler.go`: marks the
status Processing, fetches the referenced BackupEntry and BackupBucket
(either missing aborts), runs the actuator, and — only if it returned
data — writes `Status.Data = dataContent` and reports Succeeded; a nil
result or error leaves an Error status.  `beFound`/`bbFound` model the
two store gets and `actuatorResult` the actuator call. -/
def reconcilerReconcile (beFound bbFound : Bool) (actuatorResult : Option Bytes)
    (bd : RelayObject) : RelayObject × ReconcileOutcome :=
  let bd1 := { bd with lastOperationState := some GLastOperationState.processing }
  if beFound = false then (bd1, .requeue "failed to get BackupEntry")
  else if bbFound = false then (bd1, .requeue "failed to get BackupBucket")
  else
    match actuatorResult with
    | none =>
      ({ bd1 with lastOperationState := some GLastOperationState.error },
        .requeue "Error reconciling BackupDownload")
    | some d =>
      let bd2 := { bd1 with statusData := some d }
      ({ bd2 with lastOperationState := some GLastOperationState.succeeded }, .success)

/-- The observable store actions of the download driver, in order. -/
inductive RelayEvent
  | destroyObject
  | waitCleanupDone
  | deployObject (spec : RelaySpec)
  | waitReadyDone
  | readStatusData (data : Bytes)
  deriving DecidableEq, Repr

/-- `DownloadShootStateBackup` (botanist): the driver around the
BackupDownload relay.  The steps are composed exactly as in the source:

1. `component.OpDestroyAndWait(deployer).Destroy` — the `pkg/component`
   combinators are not under the source tree; modelled from the spec
   ("Destroy-if-exists"), this is the component's `Destroy`
   (`DeleteExtensionObject`) followed by `WaitCleanup`, which observes
   NotFound right away since the relay was just deleted.
2. `component.OpWait(deployer).Deploy` — modelled from the spec as
   `Deploy` followed by `Wait`; `Deploy` is `backupDownloadDeploy`
   (embedded from the component source), and during the wait the
   external BackupDownload reconciler (`reconcilerReconcile`, embedded
   from the controller source) processes the object; `Wait` returns nil
   exactly when the reconciler reported Succeeded.
3. `deployer.GetData()` — modelled from the spec ("read `Status.Data`"):
   the component's data getter is not under the source tree; it yields
   the relay object's `Status.Data`.
4. a final `component.OpDestroyAndWait(deployer).Destroy`.

The result is the downloaded bytes together with the emitted event
trace. -/
def downloadShootStateBackup (now : GoTime) (values : RelayValues)
    (beFound bbFound : Bool) (actuatorResult : Option Bytes) (s0 : Option RelayObject) :
    Except GError (Bytes × List RelayEvent) :=
  let ev1 : List RelayEvent := [.destroyObject, .waitCleanupDone]
  let deployed := backupDownloadDeploy now values none
  let ev2 := ev1 ++ [.deployObject deployed.spec]
  match reconcilerReconcile beFound bbFound actuatorResult deployed with
  | (_, .requeue m) =>
    .error ⟨"Error while waiting for BackupDownload to become ready: " ++ m, []⟩
  | (reconciled, .success) =>
    let ev3 := ev2 ++ [.waitReadyDone]
    match reconciled.statusData with
    | none => .error ⟨"no data in BackupDownload status", []⟩
    | some d => .ok (d, ev3 ++ [.readStatusData d, .destroyObject, .waitCleanupDone])

/-- C3: on the successful path (BackupEntry and BackupBucket resolve and
the actuator produces the file's bytes), the shoot-state download driver
performs destroy-if-exists, then deploys the relay object with an empty
spec payload (the written `BackupDownloadSpec` has no data field),
waits for readiness, reads the downloaded bytes from the relay object's
`Status.Data` — exactly the bytes the reconciler wrote there — and
finally destroys the relay object again. -/
theorem claim3_download_round_trip (now : GoTime) (values : RelayValues) (bs : Bytes)
    (s0 : Option RelayObject) :
    downloadShootStateBackup now values true true (some bs) s0 =
      .ok (bs,
        [.destroyObject, .waitCleanupDone,
          .deployObject
            { type := values.type
              entryName := values.entryName
              filePath := values.filePath
              data := none },
          .waitReadyDone, .readStatusData bs, .destroyObject, .waitCleanupDone])
    ∧ (reconcilerReconcile true true (some bs)
        (backupDownloadDeploy now values none)).1.statusData = some bs := by
  constructor
  · rfl
  · rfl

/-! ## State restore pipeline -/

/-- `gardencorev1alpha1.ExtensionResourceState`: one snapshot entry for
an extension object, keyed by (kind, name, purpose). -/
structure ExtensionResourceState where
  kind : String
  name : Option String
  purpose : Option String
  state : Option String
  resources : List NamedResourceReference
  deriving DecidableEq, Repr

/-- `gardencorev1alpha1.ResourceData`: one auxiliary-object payload,
keyed by its `CrossVersionObjectReference`. -/
structure ResourceData where
  ref : ObjectReference
  data : String
  deriving DecidableEq, Repr

/-- `gardencorev1alpha1.GardenerResourceData`: one persisted-secret
record, keyed by name. -/
structure GardenerResourceData where
  name : String
  labels : List (String × String)
  type : String
  data : String
  deriving DecidableEq, Repr

/-- The `ShootState.Spec` portion the restore pipeline and snapshot
builder exchange; `Extensions`/`Resources` are nilable slices in Go,
hence `Option`. -/
structure ShootStateSpec where
  gardener : List GardenerResourceData
  extensions : Option (List ExtensionResourceState)
  resources : Option (List ResourceData)
  deriving DecidableEq, Repr

/-- Modelled from the spec: `ExtensionResourceStateList.Get` of
`pkg/apis/core/v1alpha1/helper` is not under the source tree.  Per §4.6
it looks up "the matching snapshot entry by `(kind, name, purpose)`";
with upsert-by-identity lists keys are unique, so the first match is
the entry. -/
def extensionResourceStateListGet (l : List ExtensionResourceState) (kind : String)
    (name : Option String) (purpose : Option String) : Option ExtensionResourceState :=
  l.find? fun e => decide (e.kind = kind ∧ e.name = name ∧ e.purpose = purpose)

/-- Modelled from the spec: `ResourceDataList.Get` of
`pkg/apis/core/v1alpha1/helper` is not under the source tree; it
resolves "the corresponding auxiliary-object payload from the
snapshot's ResourceRef table" by reference identity. -/
def resourceDataListGet (l : List ResourceData) (ref : ObjectReference) :
    Option ResourceData :=
  l.find? fun r => decide (r.ref = ref)

/-- A store mutation issued by `RestoreExtensionObjectState`. -/
inductive StoreWrite
  | statusPatch (state : Option String) (resources : List NamedResourceReference)
  | createOrUpdateByRef (ref : ObjectReference) (data : String)
  deriving DecidableEq, Repr

/-- `RestoreExtensionObjectState` from
`pkg/extensions/customresources.go`: when the snapshot has an
`Extensions` list and it contains an entry for (kind, name, purpose),
the entry's `State`/`Resources` are patched into the object's status (a
NotFound from the status patch — the object does not exist — aborts
with an error); afterwards, for each `ResourceRef` of the restored
resources, the payload is looked up in the snapshot's `Resources` table
and, *only if found* (`if resourceData != nil`), upserted by ref — an
unresolvable reference is skipped without error.  The result is the
list of store writes performed.  (`objExists` models whether the status
patch finds the object; the auxiliary upserts are modelled as
succeeding store writes.) -/
def restoreExtensionObjectState (objExists : Bool) (shootState : ShootStateSpec)
    (extensionObj : ExtensionObject) (kind : String) : Except GError (List StoreWrite) :=
  let step1 : Except GError (List ObjectReference × List StoreWrite) :=
    match shootState.extensions with
    | none => .ok ([], [])
    | some exts =>
      match extensionResourceStateListGet exts kind (some extensionObj.name)
          extensionObj.purpose with
      | none => .ok ([], [])
      | some st =>
        if objExists then
          .ok (st.resources.map (fun r => r.resourceRef),
            [.statusPatch st.state st.resources])
        else
          .error ⟨extensionKey kind extensionObj.nspace extensionObj.name ++
            " not found", []⟩
  match step1 with
  | .error e => .error e
  | .ok (refs, ws) =>
    match shootState.resources with
    | none => .ok ws
    | some rds =>
      .ok (ws ++ refs.filterMap fun ref =>
        (resourceDataListGet rds ref).map fun rd => .createOrUpdateByRef ref rd.data)

/-- A snapshot whose restored resources list references an auxiliary
object that is absent from the snapshot's resource-data table (a
dangling reference). -/
def sampleDanglingSnapshot : ShootStateSpec :=
  { gardener := []
    extensions := some [{ kind := "Worker"
                          name := some "worker"
                          purpose := none
                          state := some "machine-state"
                          resources := [⟨"aux", ⟨"v1", "Secret", "aux-1"⟩⟩] }]
    resources := some [] }

/-- C5 counterexample: restoring `sampleDanglingSnapshot` into an
existing object succeeds — the dangling `ResourceRef` is silently
skipped (no `createOrUpdateByRef` write, no error) — contradicting the
claim that an unresolvable reference makes the restore return an
error. -/
theorem claim5_restore_counterexample :
    restoreExtensionObjectState true sampleDanglingSnapshot sampleReadyObject "Worker" =
      .ok [.statusPatch (some "machine-state") [⟨"aux", ⟨"v1", "Secret", "aux-1"⟩⟩]] := by
  rfl

/-- C5 (amended): during `RestoreExtensionObjectState`, a `ResourceRef`
of the restored resources list that cannot be resolved in the
snapshot's resource-data table is silently skipped (the restore still
succeeds and performs exactly the status patch plus one upsert per
*resolvable* reference); and if the extension object does not exist
when its status is patched, the restore returns an error. -/
theorem claim5_restore_error_handling (ss : ShootStateSpec) (obj : ExtensionObject)
    (kind : String) (exts : List ExtensionResourceState) (st : ExtensionResourceState)
    (hx : ss.extensions = some exts)
    (hfound : extensionResourceStateListGet exts kind (some obj.name) obj.purpose =
      some st) :
    (∃ e, restoreExtensionObjectState false ss obj kind = .error e)
    ∧ (∃ ws, restoreExtensionObjectState true ss obj kind = .ok ws)
    ∧ ∀ rds, ss.resources = some rds →
        restoreExtensionObjectState true ss obj kind =
          .ok ([.statusPatch st.state st.resources] ++
            (st.resources.map (fun r => r.resourceRef)).filterMap fun ref =>
              (resourceDataListGet rds ref).map fun rd =>
                .createOrUpdateByRef ref rd.data) := by
  refine ⟨?_, ?_, ?_⟩
  · refine ⟨⟨extensionKey kind obj.nspace obj.name ++ " not found", []⟩, ?_⟩
    rw [restoreExtensionObjectState]
    simp only [hx, hfound, if_neg (by simp : ¬(False = true))]
    rfl
  · rw [restoreExtensionObjectState]
    simp only [hx, hfound, if_pos rfl]
    cases ss.resources with
    | none => exact ⟨_, rfl⟩
    | some rds => exact ⟨_, rfl⟩
  · intro rds hrds
    rw [restoreExtensionObjectState]
    simp only [hx, hfound, if_pos rfl, hrds]
    simp

theorem claim5_restore_error_handling_witness :
    (∃ e, restoreExtensionObjectState false sampleDanglingSnapshot sampleReadyObject
      "Worker" = .error e)
    ∧ (∃ ws, restoreExtensionObjectState true sampleDanglingSnapshot sampleReadyObject
      "Worker" = .ok ws) := by
  have h := claim5_restore_error_handling sampleDanglingSnapshot sampleReadyObject
    "Worker" [{ kind := "Worker"
                name := some "worker"
                purpose := none
                state := some "machine-state"
                resources := [⟨"aux", ⟨"v1", "Secret", "aux-1"⟩⟩] }]
    { kind := "Worker"
      name := some "worker"
      purpose := none
      state := some "machine-state"
      resources := [⟨"aux", ⟨"v1", "Secret", "aux-1"⟩⟩] }
    rfl (by decide)
  exact ⟨h.1, h.2.1⟩

/-! ## Snapshot computation for backup upload -/

/-- Modelled from the spec: the `Upsert` helpers of
`pkg/apis/core/v1beta1/helper` (`GardenerResourceDataList`,
`ExtensionResourceStateList`, `ResourceDataList`) are not under the
source tree.  §3/§9 describe them as "an ordered mapping keyed by
composite identity with last-write-wins replacement, not a raw
append-only list": the entry with the same identity key is replaced in
place, otherwise the new entry is appended. -/
def upsertBy {α κ : Type} [DecidableEq κ] (key : α → κ) (l : List α) (x : α) : List α :=
  match l with
  | [] => [x]
  | y :: ys => if key y = key x then x :: ys else y :: upsertBy key ys x

/-- First entry with the given identity key. -/
def lookupByKey {α κ : Type} [DecidableEq κ] (key : α → κ) (l : List α) (k : κ) :
    Option α :=
  l.find? fun y => decide (key y = k)

/-- The last element of the list whose key is `k`. -/
def lastMatch {α κ : Type} [DecidableEq κ] (key : α → κ) (xs : List α) (k : κ) :
    Option α :=
  match xs with
  | [] => none
  | x :: rest =>
    match lastMatch key rest k with
    | some y => some y
    | none => if key x = k then some x else none

theorem upsertBy_map_key {α κ : Type} [DecidableEq κ] (key : α → κ) (l : List α) (x : α) :
    (upsertBy key l x).map key =
      if key x ∈ l.map key then l.map key else l.map key ++ [key x] := by
  induction l with
  | nil => simp [upsertBy]
  | cons y ys ih =>
    by_cases h : key y = key x
    · simp [upsertBy, h]
    · have hne : ¬(key x = key y) := fun hh => h hh.symm
      simp only [upsertBy, if_neg h, List.map_cons, List.mem_cons, ih]
      by_cases hm : key x ∈ ys.map key
      · simp [hm, hne]
      · simp [hm, hne]

theorem upsertBy_nodup {α κ : Type} [DecidableEq κ] (key : α → κ) (l : List α) (x : α)
    (h : (l.map key).Nodup) : ((upsertBy key l x).map key).Nodup := by
  rw [upsertBy_map_key]
  by_cases hm : key x ∈ l.map key
  · rw [if_pos hm]
    exact h
  · rw [if_neg hm]
    refine List.Nodup.append h (List.nodup_singleton _) ?_
    intro a ha hax
    rw [List.mem_singleton] at hax
    exact hm (hax ▸ ha)

theorem upsertBy_mem_key {α κ : Type} [DecidableEq κ] (key : α → κ) (l : List α) (x : α)
    (k : κ) : k ∈ (upsertBy key l x).map key ↔ k ∈ l.map key ∨ k = key x := by
  rw [upsertBy_map_key]
  by_cases hm : key x ∈ l.map key
  · rw [if_pos hm]
    constructor
    · exact fun h => Or.inl h
    · rintro (h | h)
      · exact h
      · exact h ▸ hm
  · rw [if_neg hm]
    simp

theorem foldl_upsertBy_nodup {α κ : Type} [DecidableEq κ] (key : α → κ) (xs : List α) :
    ∀ init : List α, (init.map key).Nodup →
      ((xs.foldl (upsertBy key) init).map key).Nodup := by
  induction xs with
  | nil => intro init h; exact h
  | cons x xs ih =>
    intro init h
    exact ih (upsertBy key init x) (upsertBy_nodup key init x h)

theorem foldl_upsertBy_mem {α κ : Type} [DecidableEq κ] (key : α → κ) (xs : List α)
    (k : κ) : ∀ init : List α,
      (k ∈ (xs.foldl (upsertBy key) init).map key ↔
        k ∈ init.map key ∨ ∃ x ∈ xs, key x = k) := by
  induction xs with
  | nil => intro init; simp
  | cons x xs ih =>
    intro init
    rw [List.foldl_cons, ih (upsertBy key init x), upsertBy_mem_key]
    constructor
    · rintro ((h | h) | h)
      · exact Or.inl h
      · exact Or.inr ⟨x, by simp, h.symm⟩
      · obtain ⟨y, hy, hk⟩ := h
        exact Or.inr ⟨y, by simp [hy], hk⟩
    · rintro (h | ⟨y, hy, hk⟩)
      · exact Or.inl (Or.inl h)
      · rcases List.mem_cons.mp hy with hyx | hyxs
        · exact Or.inl (Or.inr (hyx ▸ hk).symm)
        · exact Or.inr ⟨y, hyxs, hk⟩

theorem lookupByKey_upsertBy_self {α κ : Type} [DecidableEq κ] (key : α → κ) (l : List α)
    (x : α) : lookupByKey key (upsertBy key l x) (key x) = some x := by
  induction l with
  | nil =>
    simp [upsertBy, lookupByKey, List.find?]
  | cons y ys ih =>
    by_cases h : key y = key x
    · simp [upsertBy, if_pos h, lookupByKey, List.find?]
    · simp only [upsertBy, if_neg h, lookupByKey, List.find?]
      rw [decide_eq_false h]
      exact ih

theorem lookupByKey_upsertBy_ne {α κ : Type} [DecidableEq κ] (key : α → κ) (l : List α)
    (x : α) (k : κ) (hk : k ≠ key x) :
    lookupByKey key (upsertBy key l x) k = lookupByKey key l k := by
  induction l with
  | nil =>
    simp only [upsertBy, lookupByKey, List.find?]
    rw [decide_eq_false (fun hh => hk hh.symm)]
  | cons y ys ih =>
    by_cases h : key y = key x
    · simp only [upsertBy, if_pos h, lookupByKey, List.find?]
      rw [decide_eq_false (fun hh => hk hh.symm),
        decide_eq_false (fun hh : key y = k => hk (h.symm.trans hh).symm)]
    · simp only [upsertBy, if_neg h, lookupByKey, List.find?]
      by_cases hy : key y = k
      · rw [decide_eq_true hy]
      · rw [decide_eq_false hy]
        exact ih

theorem foldl_upsertBy_lookup {α κ : Type} [DecidableEq κ] (key : α → κ) (xs : List α)
    (k : κ) : ∀ init : List α,
      lookupByKey key (xs.foldl (upsertBy key) init) k =
        match lastMatch key xs k with
        | some y => some y
        | none => lookupByKey key init k := by
  induction xs with
  | nil => intro init; simp [lastMatch]
  | cons x xs ih =>
    intro init
    rw [List.foldl_cons, ih (upsertBy key init x)]
    simp only [lastMatch]
    cases lastMatch key xs k with
    | some y => rfl
    | none =>
      by_cases hx : key x = k
      · rw [if_pos hx, ← hx, lookupByKey_upsertBy_self]
      · rw [if_neg hx, lookupByKey_upsertBy_ne key init x k (fun h => hx h.symm)]

/-- A secret listed by `computeShootStateGardenerData` (only the fields
it projects). -/
structure SecretItem where
  name : String
  labels : List (String × String)
  data : String
  deriving DecidableEq, Repr

/-- The projection the loop body of `computeShootStateGardenerData`
upserts: `{Name: secret.Name, Labels: secret.Labels, Type: "secret",
Data: dataJSON}`. -/
def projectSecret (s : SecretItem) : GardenerResourceData :=
  { name := s.name, labels := s.labels, type := "secret", data := s.data }

/-- `computeShootStateGardenerData` from
`pkg/operation/botanist/backupupload.go`: lists the persisted secrets
and upserts one `GardenerResourceData` record per secret into an
initially empty list (keyed by name). -/
def computeShootStateGardenerData (secrets : List SecretItem) :
    List GardenerResourceData :=
  secrets.foldl (fun acc s => upsertBy (fun d => d.name) acc (projectSecret s)) []

/-- The identity key of an `ExtensionResourceState` (kind, name,
purpose). -/
def ekey (e : ExtensionResourceState) : String × Option String × Option String :=
  (e.kind, e.name, e.purpose)

/-- The `ExtensionResourceState` the snapshot loop upserts for a live
object of the given kind. -/
def extensionEntryOf (kind : String) (obj : ExtensionObject) : ExtensionResourceState :=
  { kind := kind
    name := some obj.name
    purpose := obj.purpose
    state := obj.state
    resources := obj.resources }

/-- The inner resource loop of
`computeShootStateExtensionsDataAndResources`: for every resource
reference of the object's status, read the referenced object
(`resolve`; a failed read aborts the whole computation) and upsert its
payload keyed by the reference. -/
def upsertResourcesOf (resolve : ObjectReference → Option String)
    (rs : List NamedResourceReference) (acc : List ResourceData) :
    Except GError (List ResourceData) :=
  match rs with
  | [] => .ok acc
  | r :: rest =>
    match resolve r.resourceRef with
    | none => .error ⟨"failed reading referenced object " ++ r.resourceRef.name, []⟩
    | some raw =>
      upsertResourcesOf resolve rest (upsertBy (fun d => d.ref) acc ⟨r.resourceRef, raw⟩)

/-- The per-kind object loop of
`computeShootStateExtensionsDataAndResources`: objects with a deletion
timestamp are skipped; live objects contribute an upserted
`ExtensionResourceState` entry and their resolved resource payloads. -/
def computeExtensionsObjects (kind : String) (resolve : ObjectReference → Option String) :
    List ExtensionObject → List ExtensionResourceState → List ResourceData →
      Except GError (List ExtensionResourceState × List ResourceData)
  | [], e, r => .ok (e, r)
  | obj :: rest, e, r =>
    match obj.deletionTimestamp with
    | some _ => computeExtensionsObjects kind resolve rest e r
    | none =>
      match upsertResourcesOf resolve obj.resources r with
      | .error err => .error err
      | .ok r2 =>
        computeExtensionsObjects kind resolve rest
          (upsertBy ekey e (extensionEntryOf kind obj)) r2

/-- The outer kind loop of
`computeShootStateExtensionsDataAndResources` (the Go `range` over the
kind→list map; the listing per kind is the model's input). -/
def computeKinds (resolve : ObjectReference → Option String) :
    List (String × List ExtensionObject) → List ExtensionResourceState →
      List ResourceData →
      Except GError (List ExtensionResourceState × List ResourceData)
  | [], e, r => .ok (e, r)
  | (kind, objs) :: rest, e, r =>
    match computeExtensionsObjects kind resolve objs e r with
    | .error err => .error err
    | .ok (e2, r2) => computeKinds resolve rest e2 r2

/-- `computeShootStateExtensionsDataAndResources` from
`pkg/operation/botanist/backupupload.go`. -/
def computeShootStateExtensionsDataAndResources
    (kindObjs : List (String × List ExtensionObject))
    (resolve : ObjectReference → Option String) :
    Except GError (List ExtensionResourceState × List ResourceData) :=
  computeKinds resolve kindObjs [] []

/-- The extension entries processed by the snapshot loops, in order:
per kind, the non-deleted objects' projections. -/
def processedEntries : List (String × List ExtensionObject) → List ExtensionResourceState
  | [] => []
  | (kind, objs) :: rest =>
    (objs.filter fun o => o.deletionTimestamp = none).map (extensionEntryOf kind) ++
      processedEntries rest

theorem upsertResourcesOf_ok (resolve : ObjectReference → Option String) :
    ∀ (rs : List NamedResourceReference) (acc r2 : List ResourceData),
      upsertResourcesOf resolve rs acc = .ok r2 →
      ∃ ds : List ResourceData, r2 = ds.foldl (upsertBy fun d => d.ref) acc := by
  intro rs
  induction rs with
  | nil =>
    intro acc r2 h
    rw [upsertResourcesOf] at h
    exact ⟨[], by simpa using (Except.ok.injEq _ _ ▸ h).symm⟩
  | cons r rest ih =>
    intro acc r2 h
    rw [upsertResourcesOf] at h
    cases hres : resolve r.resourceRef with
    | none => rw [hres] at h; exact absurd h (by simp)
    | some raw =>
      rw [hres] at h
      obtain ⟨ds, hds⟩ := ih _ _ h
      exact ⟨⟨r.resourceRef, raw⟩ :: ds, by simpa using hds⟩

theorem computeExtensionsObjects_ok (kind : String)
    (resolve : ObjectReference → Option String) :
    ∀ (objs : List ExtensionObject) (e : List ExtensionResourceState)
      (r : List ResourceData) (e2 : List ExtensionResourceState) (r2 : List ResourceData),
      computeExtensionsObjects kind resolve objs e r = .ok (e2, r2) →
      e2 = ((objs.filter fun o => o.deletionTimestamp = none).map
          (extensionEntryOf kind)).foldl (upsertBy ekey) e
      ∧ ∃ ds : List ResourceData, r2 = ds.foldl (upsertBy fun d => d.ref) r := by
  intro objs
  induction objs with
  | nil =>
    intro e r e2 r2 h
    rw [computeExtensionsObjects] at h
    have := (Except.ok.injEq _ _ ▸ h)
    obtain ⟨he, hr⟩ := Prod.mk.injEq _ _ _ _ ▸ this
    exact ⟨by simp [he.symm], ⟨[], by simp [hr.symm]⟩⟩
  | cons obj rest ih =>
    intro e r e2 r2 h
    rw [computeExtensionsObjects] at h
    cases hdt : obj.deletionTimestamp with
    | some t =>
      rw [hdt] at h
      obtain ⟨he, hds⟩ := ih _ _ _ _ h
      refine ⟨?_, hds⟩
      rw [List.filter_cons_of_neg (by simp [hdt])]
      exact he
    | none =>
      rw [hdt] at h
      cases hup : upsertResourcesOf resolve obj.resources r with
      | error err => rw [hup] at h; exact absurd h (by simp)
      | ok rmid =>
        rw [hup] at h
        obtain ⟨he, ds, hds⟩ := ih _ _ _ _ h
        obtain ⟨ds0, hds0⟩ := upsertResourcesOf_ok resolve _ _ _ hup
        refine ⟨?_, ⟨ds0 ++ ds, ?_⟩⟩
        · rw [List.filter_cons_of_pos (by simp [hdt])]
          simpa using he
        · rw [List.foldl_append, ← hds0]
          exact hds

theorem computeKinds_ok (resolve : ObjectReference → Option String) :
    ∀ (kindObjs : List (String × List ExtensionObject))
      (e : List ExtensionResourceState) (r : List ResourceData)
      (e2 : List ExtensionResourceState) (r2 : List ResourceData),
      computeKinds resolve kindObjs e r = .ok (e2, r2) →
      e2 = (processedEntries kindObjs).foldl (upsertBy ekey) e
      ∧ ∃ ds : List ResourceData, r2 = ds.foldl (upsertBy fun d => d.ref) r := by
  intro kindObjs
  induction kindObjs with
  | nil =>
    intro e r e2 r2 h
    rw [computeKinds] at h
    have := (Except.ok.injEq _ _ ▸ h)
    obtain ⟨he, hr⟩ := Prod.mk.injEq _ _ _ _ ▸ this
    exact ⟨by simp [processedEntries, he.symm], ⟨[], by simp [hr.symm]⟩⟩
  | cons p rest ih =>
    obtain ⟨kind, objs⟩ := p
    intro e r e2 r2 h
    rw [computeKinds] at h
    cases hco : computeExtensionsObjects kind resolve objs e r with
    | error err => rw [hco] at h; exact absurd h (by simp)
    | ok mid =>
      obtain ⟨emid, rmid⟩ := mid
      rw [hco] at h
      obtain ⟨he, ds, hds⟩ := ih _ _ _ _ h
      obtain ⟨he0, ds0, hds0⟩ := computeExtensionsObjects_ok kind resolve _ _ _ _ _ hco
      refine ⟨?_, ⟨ds0 ++ ds, ?_⟩⟩
      · rw [processedEntries, List.foldl_append, ← he0]
        exact he
      · rw [List.foldl_append, ← hds0]
        exact hds

theorem mem_processedEntries (x : ExtensionResourceState) :
    ∀ kindObjs : List (String × List ExtensionObject),
      (x ∈ processedEntries kindObjs ↔
        ∃ kind objs obj, (kind, objs) ∈ kindObjs ∧ obj ∈ objs ∧
          obj.deletionTimestamp = none ∧ extensionEntryOf kind obj = x) := by
  intro kindObjs
  induction kindObjs with
  | nil => simp [processedEntries]
  | cons p rest ih =>
    obtain ⟨kind, objs⟩ := p
    rw [processedEntries, List.mem_append, ih]
    constructor
    · rintro (hmem | ⟨kind2, objs2, obj, hmem, hobj, hdt, hx⟩)
      · rw [List.mem_map] at hmem
        obtain ⟨o, ho, hox⟩ := hmem
        rw [List.mem_filter] at ho
        exact ⟨kind, objs, o, by simp, ho.1, by simpa using ho.2, hox⟩
      · exact ⟨kind2, objs2, obj, List.mem_cons_of_mem _ hmem, hobj, hdt, hx⟩
    · rintro ⟨kind2, objs2, obj, hmem, hobj, hdt, hx⟩
      rcases List.mem_cons.mp hmem with hhead | htail
      · left
        obtain ⟨hk, ho⟩ := Prod.mk.injEq _ _ _ _ ▸ hhead
        rw [List.mem_map]
        exact ⟨obj, List.mem_filter.mpr ⟨ho ▸ hobj, by simp [hdt]⟩, hk ▸ hx⟩
      · exact Or.inr ⟨kind2, objs2, obj, htail, hobj, hdt, hx⟩

theorem computeShootStateGardenerData_eq_foldl (secrets : List SecretItem) :
    computeShootStateGardenerData secrets =
      (secrets.map projectSecret).foldl (upsertBy fun d => d.name) [] := by
  rw [computeShootStateGardenerData, List.foldl_map]

/-- C9: the snapshot produced for backup upload contains exactly (one
entry per identity key for) the listed extension objects without a
deletion timestamp, and all three lists — persisted-secret records
keyed by name, extension records keyed by (kind, name, purpose),
resource payloads keyed by object reference — have pairwise-distinct
identity keys, with the entry stored under a key being the projection
of the *last* processed item with that key (upsert replacement, not
duplicate append). -/
theorem claim9_snapshot_upsert_dedup (secrets : List SecretItem)
    (kindObjs : List (String × List ExtensionObject))
    (resolve : ObjectReference → Option String)
    (e : List ExtensionResourceState) (r : List ResourceData)
    (hok : computeShootStateExtensionsDataAndResources kindObjs resolve = .ok (e, r)) :
    ((computeShootStateGardenerData secrets).map fun d => d.name).Nodup
    ∧ (e.map ekey).Nodup
    ∧ (r.map fun d => d.ref).Nodup
    ∧ (∀ key, key ∈ e.map ekey ↔
        ∃ kind objs obj, (kind, objs) ∈ kindObjs ∧ obj ∈ objs ∧
          obj.deletionTimestamp = none ∧ ekey (extensionEntryOf kind obj) = key)
    ∧ ∀ nm, lookupByKey (fun d => d.name) (computeShootStateGardenerData secrets) nm =
        lastMatch (fun d => d.name) (secrets.map projectSecret) nm := by
  obtain ⟨he, ds, hds⟩ :=
    computeKinds_ok resolve kindObjs [] [] e r hok
  refine ⟨?_, ?_, ?_, ?_, ?_⟩
  · rw [computeShootStateGardenerData_eq_foldl]
    exact foldl_upsertBy_nodup _ _ _ (by simp)
  · rw [he]
    exact foldl_upsertBy_nodup _ _ _ (by simp)
  · rw [hds]
    exact foldl_upsertBy_nodup _ _ _ (by simp)
  · intro key
    rw [he, foldl_upsertBy_mem]
    simp only [List.map_nil, List.not_mem_nil, false_or]
    constructor
    · rintro ⟨x, hx, hkey⟩
      obtain ⟨kind, objs, obj, hko, hobj, hdt, hentry⟩ :=
        (mem_processedEntries x kindObjs).mp hx
      exact ⟨kind, objs, obj, hko, hobj, hdt, by rw [hentry, hkey]⟩
    · rintro ⟨kind, objs, obj, hko, hobj, hdt, hkey⟩
      exact ⟨extensionEntryOf kind obj,
        (mem_processedEntries _ kindObjs).mpr ⟨kind, objs, obj, hko, hobj, hdt, rfl⟩,
        hkey⟩
  · intro nm
    rw [computeShootStateGardenerData_eq_foldl, foldl_upsertBy_lookup]
    cases lastMatch (fun d => d.name) (secrets.map projectSecret) nm with
    | some y => rfl
    | none => rfl

/-- Concrete persisted-secret list with a duplicated name. -/
def secretsW : List SecretItem :=
  [{ name := "ca", labels := [("role", "ca")], data := "d1" },
    { name := "ca", labels := [], data := "d2" },
    { name := "kubeconfig", labels := [], data := "d3" }]

/-- Concrete extension object carrying one status resource. -/
def objW : ExtensionObject :=
  { sampleReadyObject with resources := [⟨"aux", ⟨"v1", "Secret", "aux-1"⟩⟩] }

/-- Concrete kind→objects listing. -/
def kindObjsW : List (String × List ExtensionObject) :=
  [("Worker", [objW]), ("Infrastructure", [])]

/-- Concrete referenced-object reader. -/
def resolveW : ObjectReference → Option String := fun _ => some "raw"

theorem claim9_snapshot_upsert_dedup_witness :
    ((computeShootStateGardenerData secretsW).map fun d => d.name).Nodup
    ∧ (([{ kind := "Worker"
           name := some "worker"
           purpose := none
           state := none
           resources := [⟨"aux", ⟨"v1", "Secret", "aux-1"⟩⟩] }] :
        List ExtensionResourceState).map ekey).Nodup
    ∧ (([{ ref := ⟨"v1", "Secret", "aux-1"⟩, data := "raw" }] :
        List ResourceData).map fun d => d.ref).Nodup := by
  have h := claim9_snapshot_upsert_dedup secretsW kindObjsW resolveW
    [{ kind := "Worker"
       name := some "worker"
       purpose := none
       state := none
       resources := [⟨"aux", ⟨"v1", "Secret", "aux-1"⟩⟩] }]
    [{ ref := ⟨"v1", "Secret", "aux-1"⟩, data := "raw" }] rfl
  exact ⟨h.1, h.2.1, h.2.2.1⟩

/-! ## C10: encryption round trip -/

/-- C10: for every byte slice `d`, any 16-byte IV and the AES block
function `E` of the fixed 32-byte key (any block function producing
16-byte blocks, as AES does), `decrypt(key, encrypt(key, d))` returns
`d`; `encrypt` prepends the 16-byte IV so its output is exactly 16
bytes longer than its input; and `decrypt` returns an error exactly
when its input is shorter than 16 bytes. -/
theorem claim10_encrypt_decrypt_roundtrip (E : Bytes → Bytes)
    (hE : ∀ s, (E s).length = aesBlockSize) (iv : Bytes)
    (hiv : iv.length = aesBlockSize) (d c : Bytes) :
    decrypt E (encrypt E iv d) = .ok d
    ∧ (encrypt E iv d).length = d.length + 16
    ∧ ((∃ msg, decrypt E c = .error msg) ↔ c.length < 16) := by
  refine ⟨decrypt_encrypt E hE iv hiv d, ?_, ?_⟩
  · rw [encrypt, List.length_append, hiv, cfbEncryptBlocks_length E hE]
    rw [aesBlockSize]
    omega
  · constructor
    · rintro ⟨msg, hmsg⟩
      by_contra hlen
      rw [decrypt, if_neg (by rw [aesBlockSize]; omega)] at hmsg
      exact Except.noConfusion hmsg
    · intro hlen
      refine ⟨"Ciphertext block size is too short!", ?_⟩
      rw [decrypt, if_pos (by rw [aesBlockSize]; omega)]

/-- The identity-like block function used to instantiate the round-trip
witness (any function returning 16-byte blocks qualifies). -/
def blockEW : Bytes → Bytes := fun s => (s ++ List.replicate 16 7).take 16

theorem claim10_encrypt_decrypt_roundtrip_witness :
    decrypt blockEW (encrypt blockEW (List.replicate 16 0) [1, 2, 3, 200]) =
      .ok [1, 2, 3, 200]
    ∧ (encrypt blockEW (List.replicate 16 0) [1, 2, 3, 200]).length = 4 + 16
    ∧ ((∃ msg, decrypt blockEW [9, 9, 9] = .error msg) ↔ ([9, 9, 9] : Bytes).length < 16) := by
  have h := claim10_encrypt_decrypt_roundtrip blockEW
    (fun s => by
      rw [blockEW, List.length_take, List.length_append, List.length_replicate,
        aesBlockSize]
      omega)
    (List.replicate 16 0) (by rw [List.length_replicate, aesBlockSize])
    [1, 2, 3, 200] [9, 9, 9]
  exact ⟨h.1, h.2.1, h.2.2⟩
